import Mathlib

/-!
# drone-gcp-oidc: a shallow embedding of `plugin/plugin.go`

The plugin turns a CI-issued OIDC token into Google Cloud credentials.  This
file embeds `Exec`, `VerifyEnv`, `WriteOutputToFile`, `WriteSecretOutputToFile`
and `WriteCredentialsToFile` as functions over an explicit `World` (process
environment, file contents, the outcome of every operating-system and remote
call, and the trace of the effects performed so far).

Go strings are byte sequences, so a `GoString` is a list of bytes.  Diagnostic
output (`logrus.Infof`, `fmt.Print`, `fmt.Printf`) is not part of the modelled
state, and the embedded `Pipeline` struct of `Args`, which no function of
`plugin.go` reads, is left out.
-/

namespace GcpOidc

/-! ## Strings -/

/-- A Go string: a sequence of bytes (each below 256). -/
abbrev GoString := List Nat

/-- The replacement rune U+FFFD, `utf8.RuneError`. -/
def RuneError : Nat := 0xFFFD

/-- Model of Go `utf8.AppendRune`: the UTF-8 bytes of a rune; surrogates and
values above U+10FFFF are written as the replacement rune. -/
def encodeRune (r : Nat) : GoString :=
  if r < 0x80 then [r]
  else if r < 0x800 then [0xC0 + r / 64, 0x80 + r % 64]
  else if 0x10FFFF < r ∨ (0xD800 ≤ r ∧ r ≤ 0xDFFF) then [0xEF, 0xBF, 0xBD]
  else if r < 0x10000 then [0xE0 + r / 4096, 0x80 + r / 64 % 64, 0x80 + r % 64]
  else [0xF0 + r / 262144, 0x80 + r / 4096 % 64, 0x80 + r / 64 % 64, 0x80 + r % 64]

/-- The bytes of a string literal of the source (its UTF-8 encoding). -/
def lit (s : String) : GoString :=
  s.data.flatMap fun c => encodeRune c.toNat

/-- Lowest continuation byte accepted after the leading byte `s0`
(`acceptRanges[..].lo` of Go `unicode/utf8`). -/
def acceptLo (s0 : Nat) : Nat :=
  if s0 = 0xE0 then 0xA0 else if s0 = 0xF0 then 0x90 else 0x80

/-- Highest continuation byte accepted after the leading byte `s0`
(`acceptRanges[..].hi` of Go `unicode/utf8`). -/
def acceptHi (s0 : Nat) : Nat :=
  if s0 = 0xED then 0x9F else if s0 = 0xF4 then 0x8F else 0xBF

/-- Model of Go `utf8.DecodeRuneInString`: the first rune of `s` and its width
in bytes; `(RuneError, 1)` for a byte that starts no well-formed sequence and
`(RuneError, 0)` for the empty string. -/
def decodeRune : GoString → Nat × Nat
  | [] => (RuneError, 0)
  | s0 :: t =>
    if s0 < 0x80 then (s0, 1)
    else if s0 < 0xC2 ∨ 0xF4 < s0 then (RuneError, 1)
    else if s0 < 0xE0 then
      match t with
      | s1 :: _ =>
        if acceptLo s0 ≤ s1 ∧ s1 ≤ acceptHi s0 then (s0 % 32 * 64 + s1 % 64, 2)
        else (RuneError, 1)
      | _ => (RuneError, 1)
    else if s0 < 0xF0 then
      match t with
      | s1 :: s2 :: _ =>
        if acceptLo s0 ≤ s1 ∧ s1 ≤ acceptHi s0 then
          if 0x80 ≤ s2 ∧ s2 ≤ 0xBF then (s0 % 16 * 4096 + s1 % 64 * 64 + s2 % 64, 3)
          else (RuneError, 1)
        else (RuneError, 1)
      | _ => (RuneError, 1)
    else
      match t with
      | s1 :: s2 :: s3 :: _ =>
        if acceptLo s0 ≤ s1 ∧ s1 ≤ acceptHi s0 then
          if 0x80 ≤ s2 ∧ s2 ≤ 0xBF then
            if 0x80 ≤ s3 ∧ s3 ≤ 0xBF then
              (s0 % 8 * 262144 + s1 % 64 * 4096 + s2 % 64 * 64 + s3 % 64, 4)
            else (RuneError, 1)
          else (RuneError, 1)
        else (RuneError, 1)
      | _ => (RuneError, 1)

/-- Model of Go `utf8.ValidString`, with the loop over the string bounded by
`fuel`: no byte of `s` starts an ill-formed sequence. -/
def validStringAux : Nat → GoString → Bool
  | _, [] => true
  | 0, _ :: _ => false
  | fuel + 1, b :: rest =>
    if (decodeRune (b :: rest)).1 = RuneError ∧ (decodeRune (b :: rest)).2 = 1 then false
    else validStringAux fuel ((b :: rest).drop (decodeRune (b :: rest)).2)

/-- Whether a Go string is well-formed UTF-8 (`utf8.ValidString`). -/
def ValidString (s : GoString) : Bool :=
  validStringAux s.length s

/-! ## The world the plugin runs in -/

/-- The effects `plugin.go` performs: the two remote calls and the four
operating-system calls that touch the file system. -/
inductive Effect where
  | getFederalToken (idToken projectID poolID providerID scope : GoString)
  | getGoogleCloudAccessToken (federalToken serviceAcc duration scope : GoString)
  | mkdirAll (path : GoString)
  | writeFile (path data : GoString)
  | openAppend (path : GoString)
  | write (path data : GoString)
  deriving DecidableEq, Repr

/-- State of the process and its surroundings.  `fsErr hist e` is the error the
operating system returns for the file-system call `e` made after the effects
`hist` (`none`: the call succeeds); `remote hist e` is the outcome of the
remote call `e` made after `hist`. -/
structure World where
  env : GoString → GoString
  files : GoString → Option GoString
  trace : List Effect
  fsErr : List Effect → Effect → Option GoString
  remote : List Effect → Effect → Except GoString GoString

/-- Content of the file at `path`; a missing file reads as empty. -/
def World.content (w : World) (path : GoString) : GoString :=
  (w.files path).getD []

/-- Replace the content of one file. -/
def World.setFile (w : World) (path data : GoString) : World :=
  { w with files := fun p => if p = path then some data else w.files p }

/-- Record an effect in the trace. -/
def World.record (w : World) (e : Effect) : World :=
  { w with trace := w.trace ++ [e] }

/-- The call `os.Getenv`. -/
def osGetenv (w : World) (name : GoString) : GoString :=
  w.env name

/-- The call `os.MkdirAll(path, 0755)`: directories hold no content, so only
the outcome and the trace are modelled. -/
def osMkdirAll (w : World) (path : GoString) : Option GoString × World :=
  (w.fsErr w.trace (.mkdirAll path), w.record (.mkdirAll path))

/-- The call `os.WriteFile(path, data, 0644)`: on success the file holds exactly
`data`; a failed call is modelled as leaving the file as it was. -/
def osWriteFile (w : World) (path data : GoString) : Option GoString × World :=
  match w.fsErr w.trace (.writeFile path data) with
  | some err => (some err, w.record (.writeFile path data))
  | none => (none, (w.setFile path data).record (.writeFile path data))

/-- The call `os.OpenFile(path, os.O_APPEND|os.O_CREATE|os.O_WRONLY, 0644)`: on
success the file exists (created empty when it was missing) and keeps its
content. -/
def osOpenFileAppend (w : World) (path : GoString) : Option GoString × World :=
  match w.fsErr w.trace (.openAppend path) with
  | some err => (some err, w.record (.openAppend path))
  | none => (none, (w.setFile path (w.content path)).record (.openAppend path))

/-- A write, as `fmt.Fprintf` does it, of `data` on a file opened with
`O_APPEND`: on success `data` is added at the end of the file. -/
def fileWrite (w : World) (path data : GoString) : Option GoString × World :=
  match w.fsErr w.trace (.write path data) with
  | some err => (some err, w.record (.write path data))
  | none => (none, (w.setFile path (w.content path ++ data)).record (.write path data))

/-- Modelled from the spec: `GetFederalToken` is defined outside `plugin.go`;
per the spec it performs one outbound call to the STS endpoint and returns the
federated token or an error, with no caching. -/
def GetFederalToken (w : World) (idToken projectID poolID providerID scope : GoString) :
    Except GoString GoString × World :=
  (w.remote w.trace (.getFederalToken idToken projectID poolID providerID scope),
    w.record (.getFederalToken idToken projectID poolID providerID scope))

/-- Modelled from the spec: `GetGoogleCloudAccessToken` is defined outside
`plugin.go`; per the spec it performs one outbound call to the IAM credentials
endpoint and returns the access token or an error. -/
def GetGoogleCloudAccessToken (w : World) (federalToken serviceAcc duration scope : GoString) :
    Except GoString GoString × World :=
  (w.remote w.trace (.getGoogleCloudAccessToken federalToken serviceAcc duration scope),
    w.record (.getGoogleCloudAccessToken federalToken serviceAcc duration scope))

/-! ## Arguments and their validation -/

/-- Plugin execution arguments (`type Args struct`). -/
structure Args where
  Level : GoString
  OIDCToken : GoString
  ProjectID : GoString
  PoolID : GoString
  ProviderID : GoString
  ServiceAcc : GoString
  Duration : GoString
  Scope : GoString
  CreateCreds : Bool

/-- The function `VerifyEnv`: `none` is Go's `nil`, `some msg` an error with
message `msg`. -/
def VerifyEnv (args : Args) : Option GoString :=
  if args.OIDCToken = lit "" then some (lit "oidc-token is not provided")
  else if args.ProjectID = lit "" then some (lit "project-id is not provided")
  else if args.PoolID = lit "" then some (lit "pool-id is not provided")
  else if args.ProviderID = lit "" then some (lit "provider-id is not provided")
  else if args.ServiceAcc = lit "" then some (lit "service account email is not provided")
  else none

/-! ## The output sink -/

/-- The function `WriteOutputToFile`. -/
def WriteOutputToFile (w : World) (key value : GoString) : Option GoString × World :=
  match osOpenFileAppend w (osGetenv w (lit "DRONE_OUTPUT")) with
  | (some err, w1) => (some (lit "failed to open output file: " ++ err), w1)
  | (none, w1) =>
    match fileWrite w1 (osGetenv w (lit "DRONE_OUTPUT")) (key ++ lit "=" ++ value ++ lit "\n") with
    | (some err, w2) => (some (lit "failed to write to env: " ++ err), w2)
    | (none, w2) => (none, w2)

/-- The function `WriteSecretOutputToFile`. -/
def WriteSecretOutputToFile (w : World) (key value : GoString) : Option GoString × World :=
  match osOpenFileAppend w (osGetenv w (lit "HARNESS_OUTPUT_SECRET_FILE")) with
  | (some err, w1) => (some (lit "failed to open output file: " ++ err), w1)
  | (none, w1) =>
    match fileWrite w1 (osGetenv w (lit "HARNESS_OUTPUT_SECRET_FILE"))
        (key ++ lit "=" ++ value ++ lit "\n") with
    | (some err, w2) => (some (lit "failed to write to env: " ++ err), w2)
    | (none, w2) => (none, w2)

/-! ## JSON encoding (model of Go `encoding/json`)

The source calls `json.MarshalIndent` of the Go standard library.  Its string
encoder (`appendString`, with the `\b` and `\f` escapes of Go 1.22 and later;
older releases write them as `\u0008` and `\u000c`), the sorting of map keys and
the indented layout are modelled here. -/

/-- The table `hex` of `encoding/json`: the lower-case hexadecimal digit. -/
def hex (d : Nat) : Nat :=
  (lit "0123456789abcdef").getD d 0

/-- The table `htmlSafeSet` of `encoding/json`: the ASCII bytes written to a
JSON string as they are when HTML escaping is on (the default of
`json.Marshal`): printable ASCII except the quote, the backslash and the
characters less-than, greater-than and ampersand. -/
def htmlSafeSet (b : Nat) : Bool :=
  0x20 ≤ b ∧ b < 0x80 ∧ b ≠ 0x22 ∧ b ≠ 0x5C ∧ b ≠ 0x3C ∧ b ≠ 0x3E ∧ b ≠ 0x26

/-- How `appendString` writes an ASCII byte that is not in `htmlSafeSet`. -/
def escapeByte (b : Nat) : GoString :=
  if b = 0x5C ∨ b = 0x22 then [0x5C, b]
  else if b = 0x08 then lit "\\b"
  else if b = 0x0C then lit "\\f"
  else if b = 0x0A then lit "\\n"
  else if b = 0x0D then lit "\\r"
  else if b = 0x09 then lit "\\t"
  else lit "\\u00" ++ [hex (b / 16), hex (b % 16)]

/-- The loop of `appendString` of `encoding/json` (with `escapeHTML` on), over
the part of the string not yet written; `fuel` bounds the number of
iterations.  Bytes that form no well-formed UTF-8 sequence are written as the
escape of U+FFFD, and U+2028 and U+2029 are always escaped. -/
def appendStringAux : Nat → GoString → GoString
  | _, [] => []
  | 0, _ :: _ => []
  | fuel + 1, b :: rest =>
    if b < 0x80 then
      if htmlSafeSet b then b :: appendStringAux fuel rest
      else escapeByte b ++ appendStringAux fuel rest
    else if (decodeRune (b :: rest)).1 = RuneError ∧ (decodeRune (b :: rest)).2 = 1 then
      lit "\\ufffd" ++ appendStringAux fuel rest
    else if (decodeRune (b :: rest)).1 = 0x2028 ∨ (decodeRune (b :: rest)).1 = 0x2029 then
      lit "\\u202" ++ [hex ((decodeRune (b :: rest)).1 % 16)]
        ++ appendStringAux fuel ((b :: rest).drop (decodeRune (b :: rest)).2)
    else
      (b :: rest).take (decodeRune (b :: rest)).2
        ++ appendStringAux fuel ((b :: rest).drop (decodeRune (b :: rest)).2)

/-- The JSON string literal `encoding/json` writes for a Go string. -/
def appendString (src : GoString) : GoString :=
  lit "\"" ++ appendStringAux src.length src ++ lit "\""

/-- The values stored in the credentials map: a string or a
`map[string]string`. -/
inductive Value where
  | str (s : GoString)
  | strMap (m : List (GoString × GoString))
  deriving DecidableEq, Repr

/-- A `map[string]interface{}` whose values are strings or string maps, as a
list of entries with distinct keys. -/
abbrev Document := List (GoString × Value)

/-- Byte-wise lexicographic order on strings, the order in which
`encoding/json` writes the keys of a map. -/
def keyLt : GoString → GoString → Bool
  | [], [] => false
  | [], _ :: _ => true
  | _ :: _, [] => false
  | a :: as, b :: bs => if a < b then true else if b < a then false else keyLt as bs

/-- Insert an entry into a list of entries sorted by key. -/
def insertEntry {α : Type} (e : GoString × α) : List (GoString × α) → List (GoString × α)
  | [] => [e]
  | x :: xs => if keyLt e.1 x.1 then e :: x :: xs else x :: insertEntry e xs

/-- Entries of a map in the order of their keys. -/
def sortEntries {α : Type} : List (GoString × α) → List (GoString × α)
  | [] => []
  | x :: xs => insertEntry x (sortEntries xs)

/-- Line break followed by the indentation of nesting depth `depth`
(`MarshalIndent(v, "", "  ")`: no prefix, two spaces per level). -/
def newlineIndent (depth : Nat) : GoString :=
  lit "\n" ++ (List.replicate depth (lit "  ")).flatten

/-- The members of an indented JSON object, one per line, `enc` writing the
values. -/
def marshalMembers {α : Type} (depth : Nat) (enc : α → GoString) :
    List (GoString × α) → GoString
  | [] => []
  | [e] => newlineIndent depth ++ appendString e.1 ++ lit ": " ++ enc e.2
  | e :: x :: xs =>
    newlineIndent depth ++ appendString e.1 ++ lit ": " ++ enc e.2 ++ lit ","
      ++ marshalMembers depth enc (x :: xs)

/-- An indented JSON object at nesting depth `depth`; an empty object is
written `{}`. -/
def marshalObject {α : Type} (depth : Nat) (enc : α → GoString)
    (members : List (GoString × α)) : GoString :=
  match members with
  | [] => lit "\x7b\x7d"
  | _ :: _ =>
    lit "\x7b" ++ marshalMembers (depth + 1) enc members ++ newlineIndent depth ++ lit "\x7d"

/-- Indented JSON of a value of the credentials map at nesting depth `depth`. -/
def marshalValue (depth : Nat) : Value → GoString
  | .str s => appendString s
  | .strMap m => marshalObject depth appendString (sortEntries m)

/-- Model of `json.MarshalIndent(data, "", "  ")` on a map of strings and
string maps: keys in sorted order, one member per line, two spaces per level.
The error is always `nil` for such a map. -/
def MarshalIndent (data : Document) : GoString × Option GoString :=
  (marshalObject 0 (marshalValue 1) (sortEntries data), none)

/-! ## The credentials file -/

/-- The map `data` built by `WriteCredentialsToFile`, in the order of the
source. -/
def credentialsData (idTokenPath projectNumber workforcePoolID providerID
    serviceAccountEmail : GoString) : Document :=
  [ (lit "type", .str (lit "external_account")),
    (lit "audience", .str (lit "//iam.googleapis.com/projects/" ++ projectNumber
      ++ lit "/locations/global/workloadIdentityPools/" ++ workforcePoolID
      ++ lit "/providers/" ++ providerID)),
    (lit "subject_token_type", .str (lit "urn:ietf:params:oauth:token-type:id_token")),
    (lit "token_url", .str (lit "https://sts.googleapis.com/v1/token")),
    (lit "service_account_impersonation_url",
      .str (lit "https://iamcredentials.googleapis.com/v1/projects/-/serviceAccounts/"
        ++ serviceAccountEmail ++ lit ":generateAccessToken")),
    (lit "credential_source", .strMap [(lit "file", idTokenPath)]) ]

/-- The working directory of `WriteCredentialsToFile`: the workspace root
`DRONE_WORKSPACE`, or `/home/harness` when that is empty or `/`.  (A comment of
the source speaks of `$HOME/.config/gcloud`; the code never reads `HOME`.) -/
def homeDirOf (w : World) : GoString :=
  if osGetenv w (lit "DRONE_WORKSPACE") = lit "" ∨ osGetenv w (lit "DRONE_WORKSPACE") = lit "/"
  then lit "/home/harness"
  else osGetenv w (lit "DRONE_WORKSPACE")

/-- The function `WriteCredentialsToFile`. -/
def WriteCredentialsToFile (w : World)
    (idToken projectNumber workforcePoolID providerID serviceAccountEmail : GoString) :
    Except GoString GoString × World :=
  let homeDir := homeDirOf w
  let idTokenDir := homeDir ++ lit "/tmp"
  match osMkdirAll w idTokenDir with
  | (some err, w1) => (.error (lit "failed to create tmp directory: " ++ err), w1)
  | (none, w1) =>
    let idTokenPath := idTokenDir ++ lit "/id_token"
    match osWriteFile w1 idTokenPath idToken with
    | (some err, w2) => (.error (lit "failed to write idToken to file: " ++ err), w2)
    | (none, w2) =>
      let credsDir := homeDir ++ lit "/.config/gcloud"
      match osMkdirAll w2 credsDir with
      | (some err, w3) => (.error (lit "failed to create gcloud directory: " ++ err), w3)
      | (none, w3) =>
        let credsPath := credsDir ++ lit "/application_default_credentials.json"
        let data := credentialsData idTokenPath projectNumber workforcePoolID providerID
          serviceAccountEmail
        match MarshalIndent data with
        | (_, some err) => (.error (lit "failed to marshal json data: " ++ err), w3)
        | (jsonData, none) =>
          match osWriteFile w3 credsPath jsonData with
          | (some err, w4) => (.error (lit "failed to write to credentials file: " ++ err), w4)
          | (none, w4) => (.ok credsPath, w4)

/-! ## The entry point -/

/-- The duration `Exec` works with: `3600s` when none is given, else the given
one followed by `s`. -/
def resolveDuration (args : Args) : GoString :=
  if args.Duration = lit "" then lit "3600s" else args.Duration ++ lit "s"

/-- The scope `Exec` works with: the cloud-platform scope when none is given. -/
def resolveScope (args : Args) : GoString :=
  if args.Scope = lit "" then lit "https://www.googleapis.com/auth/cloud-platform"
  else args.Scope

/-- The function `Exec`. -/
def Exec (w : World) (args : Args) : Option GoString × World :=
  match VerifyEnv args with
  | some err => (some err, w)
  | none =>
    let args := { args with Duration := resolveDuration args }
    let args := { args with Scope := resolveScope args }
    if args.CreateCreds then
      match WriteCredentialsToFile w args.OIDCToken args.ProjectID args.PoolID args.ProviderID
          args.ServiceAcc with
      | (.error err, w1) => (some err, w1)
      | (.ok credsPath, w1) =>
        match WriteOutputToFile w1 (lit "GOOGLE_APPLICATION_CREDENTIALS") credsPath with
        | (some err, w2) => (some err, w2)
        | (none, w2) => (none, w2)
    else
      match GetFederalToken w args.OIDCToken args.ProjectID args.PoolID args.ProviderID
          args.Scope with
      | (.error err, w1) => (some err, w1)
      | (.ok federalToken, w1) =>
        match GetGoogleCloudAccessToken w1 federalToken args.ServiceAcc args.Duration
            args.Scope with
        | (.error err, w2) => (some err, w2)
        | (.ok accessToken, w2) =>
          match WriteSecretOutputToFile w2 (lit "GCLOUD_ACCESS_TOKEN") accessToken with
          | (some err, w3) => (some err, w3)
          | (none, w3) => (none, w3)

/-! ## JSON decoding

The plugin only writes the credentials document; a Google client library reads
it back.  The reading side is modelled after RFC 8259 and the `unquote` of Go
`encoding/json`, for texts of the shape of the document: an object whose
members are strings or objects of strings. -/

/-- Value of a hexadecimal digit. -/
def hexVal (c : Nat) : Option Nat :=
  if 0x30 ≤ c ∧ c ≤ 0x39 then some (c - 0x30)
  else if 0x61 ≤ c ∧ c ≤ 0x66 then some (c - 0x61 + 10)
  else if 0x41 ≤ c ∧ c ≤ 0x46 then some (c - 0x41 + 10)
  else none

/-- The number written by the four hexadecimal digits that follow `\u`
(`getu4` of `encoding/json`). -/
def getu4 : GoString → Option Nat
  | a :: b :: c :: d :: _ =>
    match hexVal a, hexVal b, hexVal c, hexVal d with
    | some x, some y, some z, some u => some (((x * 16 + y) * 16 + z) * 16 + u)
    | _, _, _, _ => none
  | _ => none

/-- The rune written by a high surrogate `r1` followed by the escape of a low
surrogate at the head of `s` (`utf16.DecodeRune`), if there is one. -/
def surrogatePair (r1 : Nat) (s : GoString) : Option Nat :=
  match s with
  | e :: u :: rest =>
    if e = 0x5C ∧ u = 0x75 then
      match getu4 rest with
      | some r2 =>
        if 0xD800 ≤ r1 ∧ r1 < 0xDC00 ∧ 0xDC00 ≤ r2 ∧ r2 < 0xE000 then
          some ((r1 - 0xD800) * 1024 + (r2 - 0xDC00) + 0x10000)
        else none
      | none => none
    else none
  | _ => none

/-- Decoding of the inside of a JSON string literal, from just after the
opening quote up to the closing quote (the scanner and `unquote` of
`encoding/json`): returns the string and the input that follows the closing
quote.  `fuel` bounds the number of steps; `acc` is what has been decoded. -/
def unquoteAux : Nat → GoString → GoString → Option (GoString × GoString)
  | 0, _, _ => none
  | _ + 1, [], _ => none
  | fuel + 1, c :: rest, acc =>
    if c = 0x22 then some (acc, rest)
    else if c = 0x5C then
      match rest with
      | [] => none
      | e :: rest1 =>
        if e = 0x22 ∨ e = 0x5C ∨ e = 0x2F then unquoteAux fuel rest1 (acc ++ [e])
        else if e = 0x62 then unquoteAux fuel rest1 (acc ++ [0x08])
        else if e = 0x66 then unquoteAux fuel rest1 (acc ++ [0x0C])
        else if e = 0x6E then unquoteAux fuel rest1 (acc ++ [0x0A])
        else if e = 0x72 then unquoteAux fuel rest1 (acc ++ [0x0D])
        else if e = 0x74 then unquoteAux fuel rest1 (acc ++ [0x09])
        else if e = 0x75 then
          match getu4 rest1 with
          | none => none
          | some rr =>
            if 0xD800 ≤ rr ∧ rr < 0xE000 then
              match surrogatePair rr (rest1.drop 4) with
              | some dec => unquoteAux fuel (rest1.drop 10) (acc ++ encodeRune dec)
              | none => unquoteAux fuel (rest1.drop 4) (acc ++ encodeRune RuneError)
            else unquoteAux fuel (rest1.drop 4) (acc ++ encodeRune rr)
        else none
    else if c < 0x20 then none
    else if c < 0x80 then unquoteAux fuel rest (acc ++ [c])
    else
      unquoteAux fuel ((c :: rest).drop (decodeRune (c :: rest)).2)
        (acc ++ encodeRune (decodeRune (c :: rest)).1)

/-- Decoding of a JSON string literal at the head of the input. -/
def decodeString (s : GoString) : Option (GoString × GoString) :=
  match s with
  | [] => none
  | c :: rest => if c = 0x22 then unquoteAux (rest.length) rest [] else none

/-- The input without its leading JSON white space. -/
def skipSpace : GoString → GoString
  | [] => []
  | c :: rest =>
    if c = 0x20 ∨ c = 0x09 ∨ c = 0x0A ∨ c = 0x0D then skipSpace rest else c :: rest

/-- Decoding of the members of a JSON object, from the first key up to the
closing brace; `decodeVal` decodes the values and `fuel` bounds the number of
members. -/
def decodeMembers {α : Type} (decodeVal : GoString → Option (α × GoString)) :
    Nat → GoString → List (GoString × α) → Option (List (GoString × α) × GoString)
  | 0, _, _ => none
  | fuel + 1, s, acc =>
    match decodeString s with
    | none => none
    | some (k, s1) =>
      match skipSpace s1 with
      | [] => none
      | c :: s2 =>
        if c = 0x3A then
          match decodeVal (skipSpace s2) with
          | none => none
          | some (v, s3) =>
            match skipSpace s3 with
            | [] => none
            | d :: s4 =>
              if d = 0x2C then decodeMembers decodeVal fuel (skipSpace s4) (acc ++ [(k, v)])
              else if d = 0x7D then some (acc ++ [(k, v)], s4)
              else none
        else none

/-- Decoding of a JSON object at the head of the input. -/
def decodeObject {α : Type} (decodeVal : GoString → Option (α × GoString))
    (s : GoString) : Option (List (GoString × α) × GoString) :=
  match s with
  | [] => none
  | c :: rest =>
    if c = 0x7B then
      match skipSpace rest with
      | [] => none
      | d :: rest1 =>
        if d = 0x7D then some ([], rest1)
        else decodeMembers decodeVal (rest1.length + 1) (d :: rest1) []
    else none

/-- Decoding of a value of the credentials document: a string or an object of
strings. -/
def decodeValue (s : GoString) : Option (Value × GoString) :=
  match s with
  | [] => none
  | c :: _ =>
    if c = 0x22 then (decodeString s).map fun r => (Value.str r.1, r.2)
    else if c = 0x7B then (decodeObject decodeString s).map fun r => (Value.strMap r.1, r.2)
    else none

/-- Decoding of a JSON text into the structured form of the credentials
document: an object whose members are strings or objects of strings, with
nothing but white space around it. -/
def Unmarshal (s : GoString) : Option Document :=
  match decodeObject decodeValue (skipSpace s) with
  | none => none
  | some (doc, rest) => if skipSpace rest = [] then some doc else none

/-- The value of the member `key` of a decoded object (the last one, if the
key occurs more than once). -/
def getField {α : Type} (key : GoString) : List (GoString × α) → Option α
  | [] => none
  | e :: rest =>
    match getField key rest with
    | some v => some v
    | none => if e.1 = key then some e.2 else none

/-! ## Auxiliary definitions for the statements -/

/-- The effects performed by a run that starts in `w` and ends in `w1`. -/
def effectsOf (w w1 : World) : List Effect :=
  w1.trace.drop w.trace.length

/-- A set of arguments with every field given. -/
def sampleArgs : Args :=
  { Level := lit "info", OIDCToken := lit "tok", ProjectID := lit "123", PoolID := lit "pool",
    ProviderID := lit "prov", ServiceAcc := lit "sa@x.iam", Duration := lit "1800",
    Scope := lit "", CreateCreds := false }

/-- A world in which every call succeeds, with the three environment variables
set and no file present. -/
def sampleWorld : World :=
  { env := fun n =>
      if n = lit "DRONE_OUTPUT" then lit "/out/plain"
      else if n = lit "HARNESS_OUTPUT_SECRET_FILE" then lit "/out/secret"
      else if n = lit "DRONE_WORKSPACE" then lit "/ws"
      else lit ""
    files := fun _ => none
    trace := []
    fsErr := fun _ _ => none
    remote := fun _ e =>
      match e with
      | .getFederalToken _ _ _ _ _ => .ok (lit "fed")
      | .getGoogleCloudAccessToken _ _ _ _ => .ok (lit "acc")
      | _ => .error (lit "no such endpoint") }

/-- Whether an effect is one of the two remote calls. -/
def Effect.isRemote : Effect → Bool
  | .getFederalToken _ _ _ _ _ => true
  | .getGoogleCloudAccessToken _ _ _ _ => true
  | _ => false

/-- The sample world with the workspace root set to `/`. -/
def rootWorld : World :=
  { sampleWorld with
    env := fun n => if n = lit "DRONE_WORKSPACE" then lit "/" else sampleWorld.env n }

/-- The sample arguments with credentials-file mode selected. -/
def sampleCredsArgs : Args :=
  { sampleArgs with CreateCreds := true }

/-- Whether a byte is JSON white space. -/
def isSpace (c : Nat) : Prop :=
  c = 0x20 ∨ c = 0x09 ∨ c = 0x0A ∨ c = 0x0D

/-- Whether every string of a value is well-formed UTF-8. -/
def Value.valid : Value → Prop
  | .str s => ValidString s = true
  | .strMap m => ∀ e ∈ m, ValidString e.1 = true ∧ ValidString e.2 = true

/-- A value as it is decoded: the entries of a map come in the order of their
keys. -/
def Value.sorted : Value → Value
  | .str s => .str s
  | .strMap m => .strMap (sortEntries m)

/-- The member `key` of the JSON document held by the file at `path`, decoded. -/
def decodedField (w : World) (path key : GoString) : Option Value :=
  ((w.files path).bind Unmarshal).bind (getField key)

/-- What `encoding/json` makes of a string when it writes it: every byte that
starts no well-formed UTF-8 sequence becomes the encoding of U+FFFD, the rest is
kept; `fuel` bounds the loop over the string. -/
def coerceAux : Nat → GoString → GoString
  | _, [] => []
  | 0, _ :: _ => []
  | fuel + 1, b :: rest =>
    if (decodeRune (b :: rest)).1 = RuneError ∧ (decodeRune (b :: rest)).2 = 1 then
      [0xEF, 0xBF, 0xBD] ++ coerceAux fuel rest
    else
      (b :: rest).take (decodeRune (b :: rest)).2
        ++ coerceAux fuel ((b :: rest).drop (decodeRune (b :: rest)).2)

/-- A string coerced to well-formed UTF-8, as `encoding/json` documents it for
string values: invalid bytes are replaced by the Unicode replacement rune. -/
def coerceUTF8 (s : GoString) : GoString :=
  coerceAux s.length s

/-- Whether the keys of a value are well-formed UTF-8. -/
def Value.keysValid : Value → Prop
  | .str _ => True
  | .strMap m => ∀ e ∈ m, ValidString e.1 = true

/-- A value as it is decoded from its JSON text: strings coerced to well-formed
UTF-8, the entries of a map in the order of their keys. -/
def Value.decoded : Value → Value
  | .str s => .str (coerceUTF8 s)
  | .strMap m => .strMap ((sortEntries m).map fun e => (e.1, coerceUTF8 e.2))

/-! ## Lemmas and theorems -/

set_option maxRecDepth 100000

theorem lit_empty : lit "" = [] := rfl

@[simp] theorem record_trace (w : World) (e : Effect) : (w.record e).trace = w.trace ++ [e] := rfl
@[simp] theorem record_files (w : World) (e : Effect) : (w.record e).files = w.files := rfl
@[simp] theorem record_env (w : World) (e : Effect) : (w.record e).env = w.env := rfl
@[simp] theorem record_fsErr (w : World) (e : Effect) : (w.record e).fsErr = w.fsErr := rfl
@[simp] theorem record_remote (w : World) (e : Effect) : (w.record e).remote = w.remote := rfl
@[simp] theorem record_content (w : World) (e : Effect) (p : GoString) :
    (w.record e).content p = w.content p := rfl
@[simp] theorem setFile_trace (w : World) (p d : GoString) : (w.setFile p d).trace = w.trace := rfl
@[simp] theorem setFile_env (w : World) (p d : GoString) : (w.setFile p d).env = w.env := rfl
@[simp] theorem setFile_fsErr (w : World) (p d : GoString) : (w.setFile p d).fsErr = w.fsErr := rfl
@[simp] theorem setFile_remote (w : World) (p d : GoString) :
    (w.setFile p d).remote = w.remote := rfl
@[simp] theorem setFile_files_same (w : World) (p d : GoString) :
    (w.setFile p d).files p = some d := by simp [World.setFile]
theorem setFile_files_other (w : World) (p d q : GoString) (h : q ≠ p) :
    (w.setFile p d).files q = w.files q := by simp [World.setFile, h]
@[simp] theorem setFile_content_same (w : World) (p d : GoString) :
    (w.setFile p d).content p = d := by simp [World.content]

theorem effectsOf_append (w w1 : World) (es : List Effect) (h : w1.trace = w.trace ++ es) :
    effectsOf w w1 = es := by simp [effectsOf, h]

theorem VerifyEnv_none_iff (a : Args) :
    VerifyEnv a = none ↔
      a.OIDCToken ≠ lit "" ∧ a.ProjectID ≠ lit "" ∧ a.PoolID ≠ lit "" ∧ a.ProviderID ≠ lit ""
        ∧ a.ServiceAcc ≠ lit "" := by
  unfold VerifyEnv
  by_cases h1 : a.OIDCToken = lit "" <;> by_cases h2 : a.ProjectID = lit "" <;>
    by_cases h3 : a.PoolID = lit "" <;> by_cases h4 : a.ProviderID = lit "" <;>
    by_cases h5 : a.ServiceAcc = lit "" <;>
    simp only [h1, h2, h3, h4, h5, if_true, if_false, ne_eq, not_true_eq_false,
      not_false_eq_true, and_self, and_false, false_and, reduceCtorEq]

/-- C1: when exactly one of the five required fields (OIDCToken, ProjectID, PoolID,
ProviderID, ServiceAcc) is empty and the other four are not, `VerifyEnv` returns the
error whose message names that field, and the five messages are pairwise distinct. -/
theorem VerifyEnv_names_the_missing_field (a : Args) :
    (a.OIDCToken = lit "" → a.ProjectID ≠ lit "" → a.PoolID ≠ lit "" → a.ProviderID ≠ lit "" →
        a.ServiceAcc ≠ lit "" → VerifyEnv a = some (lit "oidc-token is not provided"))
    ∧ (a.OIDCToken ≠ lit "" → a.ProjectID = lit "" → a.PoolID ≠ lit "" → a.ProviderID ≠ lit "" →
        a.ServiceAcc ≠ lit "" → VerifyEnv a = some (lit "project-id is not provided"))
    ∧ (a.OIDCToken ≠ lit "" → a.ProjectID ≠ lit "" → a.PoolID = lit "" → a.ProviderID ≠ lit "" →
        a.ServiceAcc ≠ lit "" → VerifyEnv a = some (lit "pool-id is not provided"))
    ∧ (a.OIDCToken ≠ lit "" → a.ProjectID ≠ lit "" → a.PoolID ≠ lit "" → a.ProviderID = lit "" →
        a.ServiceAcc ≠ lit "" → VerifyEnv a = some (lit "provider-id is not provided"))
    ∧ (a.OIDCToken ≠ lit "" → a.ProjectID ≠ lit "" → a.PoolID ≠ lit "" → a.ProviderID ≠ lit "" →
        a.ServiceAcc = lit "" → VerifyEnv a = some (lit "service account email is not provided"))
    ∧ [lit "oidc-token is not provided", lit "project-id is not provided",
        lit "pool-id is not provided", lit "provider-id is not provided",
        lit "service account email is not provided"].Pairwise (fun m n => m ≠ n) := by
  refine ⟨?_, ?_, ?_, ?_, ?_, by decide⟩ <;> intro h1 h2 h3 h4 h5 <;>
    simp only [VerifyEnv, h1, h2, h3, h4, h5, if_true, if_false]

theorem VerifyEnv_names_the_missing_field_witness :
    VerifyEnv { sampleArgs with OIDCToken := lit "" } = some (lit "oidc-token is not provided")
    ∧ VerifyEnv { sampleArgs with ProjectID := lit "" } = some (lit "project-id is not provided")
    ∧ VerifyEnv { sampleArgs with PoolID := lit "" } = some (lit "pool-id is not provided")
    ∧ VerifyEnv { sampleArgs with ProviderID := lit "" } = some (lit "provider-id is not provided")
    ∧ VerifyEnv { sampleArgs with ServiceAcc := lit "" }
        = some (lit "service account email is not provided") :=
  ⟨(VerifyEnv_names_the_missing_field _).1 (by decide) (by decide) (by decide) (by decide)
      (by decide),
    (VerifyEnv_names_the_missing_field _).2.1 (by decide) (by decide) (by decide) (by decide)
      (by decide),
    (VerifyEnv_names_the_missing_field _).2.2.1 (by decide) (by decide) (by decide) (by decide)
      (by decide),
    (VerifyEnv_names_the_missing_field _).2.2.2.1 (by decide) (by decide) (by decide) (by decide)
      (by decide),
    (VerifyEnv_names_the_missing_field _).2.2.2.2.1 (by decide) (by decide) (by decide)
      (by decide) (by decide)⟩

/-- C2: when at least one of the five required fields is empty, `Exec` returns the
error of `VerifyEnv` and leaves the world as it was: it performs no effect (no remote
call, no file-system call) and changes no file.  `VerifyEnv` returns nil exactly when
all five fields are non-empty, so a run of `Exec` that performs any effect has all five
fields non-empty. -/
theorem Exec_fails_fast (w : World) (a : Args)
    (h : a.OIDCToken = lit "" ∨ a.ProjectID = lit "" ∨ a.PoolID = lit "" ∨ a.ProviderID = lit ""
      ∨ a.ServiceAcc = lit "") :
    (∃ err, VerifyEnv a = some err ∧ Exec w a = (some err, w))
    ∧ effectsOf w (Exec w a).2 = []
    ∧ (Exec w a).2.files = w.files
    ∧ (∀ b : Args, VerifyEnv b = none ↔
        (b.OIDCToken ≠ lit "" ∧ b.ProjectID ≠ lit "" ∧ b.PoolID ≠ lit "" ∧ b.ProviderID ≠ lit ""
          ∧ b.ServiceAcc ≠ lit ""))
    ∧ (∀ (v : World) (b : Args), effectsOf v (Exec v b).2 ≠ [] →
        (b.OIDCToken ≠ lit "" ∧ b.ProjectID ≠ lit "" ∧ b.PoolID ≠ lit "" ∧ b.ProviderID ≠ lit ""
          ∧ b.ServiceAcc ≠ lit "")) := by
  have key : ∀ (v : World) (b : Args) (err : GoString), VerifyEnv b = some err →
      Exec v b = (some err, v) := by
    intro v b err hb
    simp [Exec, hb]
  have hsome : ∃ err, VerifyEnv a = some err := by
    cases hv : VerifyEnv a with
    | some err => exact ⟨err, rfl⟩
    | none =>
      have := (VerifyEnv_none_iff a).1 hv
      tauto
  obtain ⟨err, herr⟩ := hsome
  refine ⟨⟨err, herr, key w a err herr⟩, ?_, ?_, VerifyEnv_none_iff, ?_⟩
  · rw [key w a err herr]; simp [effectsOf]
  · rw [key w a err herr]
  · intro v b hne
    cases hv : VerifyEnv b with
    | none => exact (VerifyEnv_none_iff b).1 hv
    | some e =>
      rw [key v b e hv] at hne
      simp [effectsOf] at hne

theorem Exec_fails_fast_witness :
    ({ sampleArgs with PoolID := lit "" } : Args).PoolID = lit ""
    ∧ effectsOf sampleWorld (Exec sampleWorld { sampleArgs with PoolID := lit "" }).2 = []
    ∧ (Exec sampleWorld { sampleArgs with PoolID := lit "" }).2.files = sampleWorld.files :=
  ⟨by decide,
    (Exec_fails_fast sampleWorld { sampleArgs with PoolID := lit "" }
      (Or.inr (Or.inr (Or.inl (by decide))))).2.1,
    (Exec_fails_fast sampleWorld { sampleArgs with PoolID := lit "" }
      (Or.inr (Or.inr (Or.inl (by decide))))).2.2.1⟩

/-- What a successful append of one line to the file at `p` leaves behind. -/
theorem appendLine_ok (w : World) (p data : GoString) (w2 : World)
    (h : (match osOpenFileAppend w p with
      | (some err, w1) => (some (lit "failed to open output file: " ++ err), w1)
      | (none, w1) =>
        match fileWrite w1 p data with
        | (some err, w2) => (some (lit "failed to write to env: " ++ err), w2)
        | (none, w2) => (none, w2)) = (none, w2)) :
    w2.trace = w.trace ++ [.openAppend p, .write p data]
    ∧ w2.content p = w.content p ++ data
    ∧ (∀ q, q ≠ p → w2.files q = w.files q)
    ∧ w2.env = w.env ∧ w2.fsErr = w.fsErr ∧ w2.remote = w.remote := by
  unfold osOpenFileAppend at h
  cases ho : w.fsErr w.trace (.openAppend p) with
  | some e => simp [ho] at h
  | none =>
    simp only [ho] at h
    unfold fileWrite at h
    cases hw : w.fsErr (w.trace ++ [.openAppend p]) (.write p data) with
    | some e => simp [hw] at h
    | none =>
      simp [hw] at h
      subst h
      refine ⟨by simp, by simp, ?_, by simp, by simp, by simp⟩
      intro q hq
      simp [setFile_files_other, hq]

/-- The trace after an append of one line, whatever its outcome. -/
theorem appendLine_trace (w : World) (p data : GoString) :
    (match osOpenFileAppend w p with
      | (some err, w1) => (some (lit "failed to open output file: " ++ err), w1)
      | (none, w1) =>
        match fileWrite w1 p data with
        | (some err, w2) => (some (lit "failed to write to env: " ++ err), w2)
        | (none, w2) => (none, w2)).2.trace
      = w.trace ++ (.openAppend p ::
          (if w.fsErr w.trace (.openAppend p) = none then [.write p data] else [])) := by
  unfold osOpenFileAppend
  cases ho : w.fsErr w.trace (.openAppend p) with
  | some e => simp
  | none =>
    simp only
    unfold fileWrite
    cases hw : w.fsErr (w.trace ++ [.openAppend p]) (.write p data) with
    | some e => simp [hw]
    | none => simp [hw]

theorem lit_append (s t : String) : lit (s ++ t) = lit s ++ lit t := by
  simp [lit, String.data_append]

theorem WriteOutputToFile_trace (w : World) (k v : GoString) :
    (WriteOutputToFile w k v).2.trace
      = w.trace ++ (.openAppend (w.env (lit "DRONE_OUTPUT")) ::
          (if w.fsErr w.trace (.openAppend (w.env (lit "DRONE_OUTPUT"))) = none
            then [.write (w.env (lit "DRONE_OUTPUT")) (k ++ lit "=" ++ v ++ lit "\n")]
            else [])) :=
  appendLine_trace w _ _

theorem WriteSecretOutputToFile_trace (w : World) (k v : GoString) :
    (WriteSecretOutputToFile w k v).2.trace
      = w.trace ++ (.openAppend (w.env (lit "HARNESS_OUTPUT_SECRET_FILE")) ::
          (if w.fsErr w.trace (.openAppend (w.env (lit "HARNESS_OUTPUT_SECRET_FILE"))) = none
            then [.write (w.env (lit "HARNESS_OUTPUT_SECRET_FILE"))
              (k ++ lit "=" ++ v ++ lit "\n")]
            else [])) :=
  appendLine_trace w _ _

theorem WriteOutputToFile_ok (w : World) (k v : GoString) (w2 : World)
    (h : WriteOutputToFile w k v = (none, w2)) :
    w2.trace = w.trace ++ [.openAppend (w.env (lit "DRONE_OUTPUT")),
        .write (w.env (lit "DRONE_OUTPUT")) (k ++ lit "=" ++ v ++ lit "\n")]
    ∧ w2.content (w.env (lit "DRONE_OUTPUT"))
        = w.content (w.env (lit "DRONE_OUTPUT")) ++ (k ++ lit "=" ++ v ++ lit "\n")
    ∧ (∀ q, q ≠ w.env (lit "DRONE_OUTPUT") → w2.files q = w.files q)
    ∧ w2.env = w.env ∧ w2.fsErr = w.fsErr ∧ w2.remote = w.remote :=
  appendLine_ok w _ _ w2 h

theorem WriteSecretOutputToFile_ok (w : World) (k v : GoString) (w2 : World)
    (h : WriteSecretOutputToFile w k v = (none, w2)) :
    w2.trace = w.trace ++ [.openAppend (w.env (lit "HARNESS_OUTPUT_SECRET_FILE")),
        .write (w.env (lit "HARNESS_OUTPUT_SECRET_FILE")) (k ++ lit "=" ++ v ++ lit "\n")]
    ∧ w2.content (w.env (lit "HARNESS_OUTPUT_SECRET_FILE"))
        = w.content (w.env (lit "HARNESS_OUTPUT_SECRET_FILE")) ++ (k ++ lit "=" ++ v ++ lit "\n")
    ∧ (∀ q, q ≠ w.env (lit "HARNESS_OUTPUT_SECRET_FILE") → w2.files q = w.files q)
    ∧ w2.env = w.env ∧ w2.fsErr = w.fsErr ∧ w2.remote = w.remote :=
  appendLine_ok w _ _ w2 h

/-- The effects of `Exec` in token mode, for every outcome of the calls. -/
theorem Exec_token_effects (w : World) (a : Args) (hv : VerifyEnv a = none)
    (hm : a.CreateCreds = false) :
    effectsOf w (Exec w a).2 =
      .getFederalToken a.OIDCToken a.ProjectID a.PoolID a.ProviderID (resolveScope a) ::
        (match w.remote w.trace
            (.getFederalToken a.OIDCToken a.ProjectID a.PoolID a.ProviderID (resolveScope a)) with
          | .error _ => []
          | .ok ft =>
            .getGoogleCloudAccessToken ft a.ServiceAcc (resolveDuration a) (resolveScope a) ::
              (match w.remote (w.trace ++ [.getFederalToken a.OIDCToken a.ProjectID a.PoolID
                    a.ProviderID (resolveScope a)])
                  (.getGoogleCloudAccessToken ft a.ServiceAcc (resolveDuration a)
                    (resolveScope a)) with
                | .error _ => []
                | .ok tok =>
                  .openAppend (w.env (lit "HARNESS_OUTPUT_SECRET_FILE")) ::
                    (if w.fsErr (w.trace ++ [.getFederalToken a.OIDCToken a.ProjectID a.PoolID
                          a.ProviderID (resolveScope a),
                        .getGoogleCloudAccessToken ft a.ServiceAcc (resolveDuration a)
                          (resolveScope a)])
                        (.openAppend (w.env (lit "HARNESS_OUTPUT_SECRET_FILE"))) = none
                    then [.write (w.env (lit "HARNESS_OUTPUT_SECRET_FILE"))
                      (lit "GCLOUD_ACCESS_TOKEN" ++ lit "=" ++ tok ++ lit "\n")]
                    else []))) := by
  apply effectsOf_append
  have hs : ∀ (d : GoString) (c : Bool), resolveScope
      { Level := a.Level, OIDCToken := a.OIDCToken, ProjectID := a.ProjectID,
        PoolID := a.PoolID, ProviderID := a.ProviderID, ServiceAcc := a.ServiceAcc,
        Duration := d, Scope := a.Scope, CreateCreds := c } = resolveScope a :=
    fun _ _ => rfl
  simp only [Exec, hv, hm, GetFederalToken, GetGoogleCloudAccessToken, hs]
  cases h1 : w.remote w.trace
      (.getFederalToken a.OIDCToken a.ProjectID a.PoolID a.ProviderID (resolveScope a)) with
  | error e => simp
  | ok ft =>
    simp only [record_trace, record_remote]
    cases h2 : w.remote (w.trace ++ [.getFederalToken a.OIDCToken a.ProjectID a.PoolID
        a.ProviderID (resolveScope a)])
        (.getGoogleCloudAccessToken ft a.ServiceAcc (resolveDuration a) (resolveScope a)) with
    | error e => simp
    | ok tok =>
      simp only []
      have := WriteSecretOutputToFile_trace
        ((w.record (.getFederalToken a.OIDCToken a.ProjectID a.PoolID a.ProviderID
          (resolveScope a))).record (.getGoogleCloudAccessToken ft a.ServiceAcc
            (resolveDuration a) (resolveScope a)))
        (lit "GCLOUD_ACCESS_TOKEN") tok
      simp only [record_trace, record_fsErr, record_env, List.append_assoc,
        List.singleton_append] at this
      generalize WriteSecretOutputToFile
        ((w.record (.getFederalToken a.OIDCToken a.ProjectID a.PoolID a.ProviderID
          (resolveScope a))).record (.getGoogleCloudAccessToken ft a.ServiceAcc
            (resolveDuration a) (resolveScope a)))
        (lit "GCLOUD_ACCESS_TOKEN") tok = r at this ⊢
      rcases r with ⟨_ | e, w3⟩ <;> simpa using this

/-- An append of one line succeeds when the open and the write do. -/
theorem appendLine_succeeds (w : World) (p data : GoString)
    (ho : w.fsErr w.trace (.openAppend p) = none)
    (hw : w.fsErr (w.trace ++ [.openAppend p]) (.write p data) = none) :
    (match osOpenFileAppend w p with
      | (some err, w1) => (some (lit "failed to open output file: " ++ err), w1)
      | (none, w1) =>
        match fileWrite w1 p data with
        | (some err, w2) => (some (lit "failed to write to env: " ++ err), w2)
        | (none, w2) => (none, w2)).1 = none := by
  simp [osOpenFileAppend, fileWrite, ho, hw]

theorem WriteOutputToFile_succeeds (w : World) (k v : GoString)
    (ho : w.fsErr w.trace (.openAppend (w.env (lit "DRONE_OUTPUT"))) = none)
    (hw : w.fsErr (w.trace ++ [.openAppend (w.env (lit "DRONE_OUTPUT"))])
      (.write (w.env (lit "DRONE_OUTPUT")) (k ++ lit "=" ++ v ++ lit "\n")) = none) :
    (WriteOutputToFile w k v).1 = none :=
  appendLine_succeeds w _ _ ho hw

theorem WriteSecretOutputToFile_succeeds (w : World) (k v : GoString)
    (ho : w.fsErr w.trace (.openAppend (w.env (lit "HARNESS_OUTPUT_SECRET_FILE"))) = none)
    (hw : w.fsErr (w.trace ++ [.openAppend (w.env (lit "HARNESS_OUTPUT_SECRET_FILE"))])
      (.write (w.env (lit "HARNESS_OUTPUT_SECRET_FILE")) (k ++ lit "=" ++ v ++ lit "\n"))
        = none) :
    (WriteSecretOutputToFile w k v).1 = none :=
  appendLine_succeeds w _ _ ho hw

/-- In token mode, once both remote calls have succeeded `Exec` ends with the
write of the access token. -/
theorem Exec_token_result (w : World) (a : Args) (hv : VerifyEnv a = none)
    (hm : a.CreateCreds = false) (ft tok : GoString)
    (h1 : w.remote w.trace
      (.getFederalToken a.OIDCToken a.ProjectID a.PoolID a.ProviderID (resolveScope a)) = .ok ft)
    (h2 : w.remote (w.trace ++ [.getFederalToken a.OIDCToken a.ProjectID a.PoolID
        a.ProviderID (resolveScope a)])
      (.getGoogleCloudAccessToken ft a.ServiceAcc (resolveDuration a) (resolveScope a))
        = .ok tok) :
    Exec w a = WriteSecretOutputToFile
      ((w.record (.getFederalToken a.OIDCToken a.ProjectID a.PoolID a.ProviderID
        (resolveScope a))).record
        (.getGoogleCloudAccessToken ft a.ServiceAcc (resolveDuration a) (resolveScope a)))
      (lit "GCLOUD_ACCESS_TOKEN") tok := by
  have hs : ∀ (d : GoString) (c : Bool), resolveScope
      { Level := a.Level, OIDCToken := a.OIDCToken, ProjectID := a.ProjectID,
        PoolID := a.PoolID, ProviderID := a.ProviderID, ServiceAcc := a.ServiceAcc,
        Duration := d, Scope := a.Scope, CreateCreds := c } = resolveScope a :=
    fun _ _ => rfl
  simp only [Exec, hv, hm, GetFederalToken, GetGoogleCloudAccessToken, hs, h1, record_trace,
    record_remote, h2]
  generalize WriteSecretOutputToFile _ _ _ = r
  rcases r with ⟨_ | e, w3⟩ <;> simp

/-- In token mode, a failure of the first remote call ends `Exec`. -/
theorem Exec_token_first_fails (w : World) (a : Args) (hv : VerifyEnv a = none)
    (hm : a.CreateCreds = false) (err : GoString)
    (h1 : w.remote w.trace
      (.getFederalToken a.OIDCToken a.ProjectID a.PoolID a.ProviderID (resolveScope a))
        = .error err) :
    Exec w a = (some err, w.record
      (.getFederalToken a.OIDCToken a.ProjectID a.PoolID a.ProviderID (resolveScope a))) := by
  have hs : ∀ (d : GoString) (c : Bool), resolveScope
      { Level := a.Level, OIDCToken := a.OIDCToken, ProjectID := a.ProjectID,
        PoolID := a.PoolID, ProviderID := a.ProviderID, ServiceAcc := a.ServiceAcc,
        Duration := d, Scope := a.Scope, CreateCreds := c } = resolveScope a :=
    fun _ _ => rfl
  simp only [Exec, hv, hm, GetFederalToken, hs, h1]
  simp

/-- C3: in token mode with valid required fields, every call of
`GetGoogleCloudAccessToken` that `Exec` makes is passed the duration `3600s` when
`Args.Duration` is empty and `Args.Duration` followed by `s` otherwise; and the call is
made once `GetFederalToken` has returned a token. -/
theorem Exec_passes_resolved_duration (w : World) (a : Args) (hv : VerifyEnv a = none)
    (hm : a.CreateCreds = false) :
    (∀ ft sa d sc, Effect.getGoogleCloudAccessToken ft sa d sc ∈ effectsOf w (Exec w a).2 →
        (a.Duration = lit "" → d = lit "3600s")
        ∧ (a.Duration ≠ lit "" → d = a.Duration ++ lit "s"))
    ∧ (∀ ft, (GetFederalToken w a.OIDCToken a.ProjectID a.PoolID a.ProviderID
          (resolveScope a)).1 = .ok ft →
        ∃ d sc, Effect.getGoogleCloudAccessToken ft a.ServiceAcc d sc
          ∈ effectsOf w (Exec w a).2) := by
  rw [Exec_token_effects w a hv hm]
  constructor
  · intro ft sa d sc hmem
    have hd : d = resolveDuration a := by
      cases h1 : w.remote w.trace
          (.getFederalToken a.OIDCToken a.ProjectID a.PoolID a.ProviderID (resolveScope a)) with
      | error e => simp [h1] at hmem
      | ok ft1 =>
        simp only [h1] at hmem
        cases h2 : w.remote (w.trace ++ [.getFederalToken a.OIDCToken a.ProjectID a.PoolID
            a.ProviderID (resolveScope a)])
            (.getGoogleCloudAccessToken ft1 a.ServiceAcc (resolveDuration a)
              (resolveScope a)) with
        | error e => simp [h2] at hmem; exact hmem.2.2.1
        | ok tok =>
          simp only [h2] at hmem
          split at hmem <;> simp at hmem <;> exact hmem.2.2.1
    subst hd
    constructor
    · intro he; simp [resolveDuration, he]
    · intro hne; simp [resolveDuration, hne]
  · intro ft h1
    simp only [GetFederalToken] at h1
    refine ⟨resolveDuration a, resolveScope a, ?_⟩
    simp [h1]

theorem Exec_passes_resolved_duration_witness :
    VerifyEnv sampleArgs = none ∧ sampleArgs.CreateCreds = false
    ∧ sampleArgs.Duration = lit "1800"
    ∧ Effect.getGoogleCloudAccessToken (lit "fed") (lit "sa@x.iam") (lit "1800s")
        (lit "https://www.googleapis.com/auth/cloud-platform")
          ∈ effectsOf sampleWorld (Exec sampleWorld sampleArgs).2
    ∧ lit "1800s" = sampleArgs.Duration ++ lit "s" :=
  ⟨by decide, by decide, by decide, by decide,
    ((Exec_passes_resolved_duration sampleWorld sampleArgs (by decide) (by decide)).1
      (lit "fed") (lit "sa@x.iam") (lit "1800s")
      (lit "https://www.googleapis.com/auth/cloud-platform") (by decide)).2 (by decide)⟩

/-- C4: in token mode with valid required fields, every call of `GetFederalToken` and
of `GetGoogleCloudAccessToken` that `Exec` makes is passed the cloud-platform scope when
`Args.Scope` is empty and `Args.Scope` unchanged otherwise; one and the same scope value
goes to both calls. -/
theorem Exec_passes_resolved_scope (w : World) (a : Args) (hv : VerifyEnv a = none)
    (hm : a.CreateCreds = false) :
    (∀ e ∈ effectsOf w (Exec w a).2,
        (∀ t p l r sc, e = .getFederalToken t p l r sc →
          (a.Scope = lit "" → sc = lit "https://www.googleapis.com/auth/cloud-platform")
          ∧ (a.Scope ≠ lit "" → sc = a.Scope))
        ∧ (∀ ft sa d sc, e = .getGoogleCloudAccessToken ft sa d sc →
          (a.Scope = lit "" → sc = lit "https://www.googleapis.com/auth/cloud-platform")
          ∧ (a.Scope ≠ lit "" → sc = a.Scope)))
    ∧ (∃ sc, Effect.getFederalToken a.OIDCToken a.ProjectID a.PoolID a.ProviderID sc
          ∈ effectsOf w (Exec w a).2
        ∧ ∀ ft, w.remote w.trace
            (.getFederalToken a.OIDCToken a.ProjectID a.PoolID a.ProviderID sc) = .ok ft →
          ∃ d, Effect.getGoogleCloudAccessToken ft a.ServiceAcc d sc
            ∈ effectsOf w (Exec w a).2) := by
  have hsc : (a.Scope = lit "" →
      resolveScope a = lit "https://www.googleapis.com/auth/cloud-platform")
      ∧ (a.Scope ≠ lit "" → resolveScope a = a.Scope) :=
    ⟨fun he => by simp [resolveScope, he], fun hne => by simp [resolveScope, hne]⟩
  rw [Exec_token_effects w a hv hm]
  constructor
  · intro e hmem
    have key : (∀ t p l r sc, e = .getFederalToken t p l r sc → sc = resolveScope a)
        ∧ (∀ ft sa d sc, e = .getGoogleCloudAccessToken ft sa d sc → sc = resolveScope a) := by
      cases h1 : w.remote w.trace
          (.getFederalToken a.OIDCToken a.ProjectID a.PoolID a.ProviderID (resolveScope a)) with
      | error err =>
        simp [h1] at hmem
        subst hmem
        exact ⟨fun t p l r sc he => by cases he; rfl, fun ft sa d sc he => by cases he⟩
      | ok ft1 =>
        simp only [h1] at hmem
        cases h2 : w.remote (w.trace ++ [.getFederalToken a.OIDCToken a.ProjectID a.PoolID
            a.ProviderID (resolveScope a)])
            (.getGoogleCloudAccessToken ft1 a.ServiceAcc (resolveDuration a)
              (resolveScope a)) with
        | error err =>
          simp [h2] at hmem
          rcases hmem with rfl | rfl <;>
            refine ⟨fun t p l r sc he => ?_, fun ft sa d sc he => ?_⟩ <;> cases he <;> rfl
        | ok tok =>
          simp only [h2] at hmem
          have hmem2 : e = .getFederalToken a.OIDCToken a.ProjectID a.PoolID a.ProviderID
                (resolveScope a)
              ∨ e = .getGoogleCloudAccessToken ft1 a.ServiceAcc (resolveDuration a)
                (resolveScope a)
              ∨ e = .openAppend (w.env (lit "HARNESS_OUTPUT_SECRET_FILE"))
              ∨ e = .write (w.env (lit "HARNESS_OUTPUT_SECRET_FILE"))
                (lit "GCLOUD_ACCESS_TOKEN" ++ lit "=" ++ tok ++ lit "\n") := by
            split at hmem <;> simp at hmem <;> tauto
          rcases hmem2 with rfl | rfl | rfl | rfl <;>
            refine ⟨fun t p l r sc he => ?_, fun ft sa d sc he => ?_⟩ <;> cases he <;> rfl
    refine ⟨fun t p l r sc he => ?_, fun ft sa d sc he => ?_⟩
    · rw [key.1 t p l r sc he]; exact hsc
    · rw [key.2 ft sa d sc he]; exact hsc
  · refine ⟨resolveScope a, by simp, fun ft h1 => ⟨resolveDuration a, ?_⟩⟩
    simp [h1]

theorem Exec_passes_resolved_scope_witness :
    VerifyEnv sampleArgs = none ∧ sampleArgs.CreateCreds = false ∧ sampleArgs.Scope = lit ""
    ∧ effectsOf sampleWorld (Exec sampleWorld sampleArgs).2
      = [.getFederalToken (lit "tok") (lit "123") (lit "pool") (lit "prov")
          (lit "https://www.googleapis.com/auth/cloud-platform"),
        .getGoogleCloudAccessToken (lit "fed") (lit "sa@x.iam") (lit "1800s")
          (lit "https://www.googleapis.com/auth/cloud-platform"),
        .openAppend (lit "/out/secret"),
        .write (lit "/out/secret") (lit "GCLOUD_ACCESS_TOKEN=acc\n")]
    ∧ ∀ e ∈ effectsOf sampleWorld (Exec sampleWorld sampleArgs).2,
        (∀ t p l r sc, e = .getFederalToken t p l r sc →
          (sampleArgs.Scope = lit "" → sc = lit "https://www.googleapis.com/auth/cloud-platform")
          ∧ (sampleArgs.Scope ≠ lit "" → sc = sampleArgs.Scope))
        ∧ (∀ ft sa d sc, e = .getGoogleCloudAccessToken ft sa d sc →
          (sampleArgs.Scope = lit "" → sc = lit "https://www.googleapis.com/auth/cloud-platform")
          ∧ (sampleArgs.Scope ≠ lit "" → sc = sampleArgs.Scope)) :=
  ⟨by decide, by decide, by decide, by decide,
    (Exec_passes_resolved_scope sampleWorld sampleArgs (by decide) (by decide)).1⟩

/-- C5: in token mode with valid required fields, when both remote calls succeed, the
effects of `Exec` are the call of `GetFederalToken`, then the call of
`GetGoogleCloudAccessToken` with the federated token of the first call, the service
account and the resolved duration and scope, then the opening of the secret output
destination and the write of the line `GCLOUD_ACCESS_TOKEN=<token>` with the token of
the second call, newline-terminated; a successful run leaves that line appended to the
secret destination and every other file (the plain destination among them) as it was,
and `Exec` succeeds when the file system does.  When the first call fails, `Exec`
returns its error after that single call, with no second call and no write. -/
theorem Exec_token_mode (w : World) (a : Args) (hv : VerifyEnv a = none)
    (hm : a.CreateCreds = false) :
    (∀ ft tok,
        w.remote w.trace (.getFederalToken a.OIDCToken a.ProjectID a.PoolID a.ProviderID
          (resolveScope a)) = .ok ft →
        w.remote (w.trace ++ [.getFederalToken a.OIDCToken a.ProjectID a.PoolID a.ProviderID
            (resolveScope a)])
          (.getGoogleCloudAccessToken ft a.ServiceAcc (resolveDuration a) (resolveScope a))
          = .ok tok →
        (∃ fsEffects, effectsOf w (Exec w a).2 =
            .getFederalToken a.OIDCToken a.ProjectID a.PoolID a.ProviderID (resolveScope a) ::
            .getGoogleCloudAccessToken ft a.ServiceAcc (resolveDuration a) (resolveScope a) ::
            fsEffects
          ∧ (fsEffects = [.openAppend (w.env (lit "HARNESS_OUTPUT_SECRET_FILE"))]
            ∨ fsEffects = [.openAppend (w.env (lit "HARNESS_OUTPUT_SECRET_FILE")),
                .write (w.env (lit "HARNESS_OUTPUT_SECRET_FILE"))
                  (lit "GCLOUD_ACCESS_TOKEN=" ++ tok ++ lit "\n")]))
        ∧ (∀ w1, Exec w a = (none, w1) →
            effectsOf w w1 =
              [.getFederalToken a.OIDCToken a.ProjectID a.PoolID a.ProviderID (resolveScope a),
                .getGoogleCloudAccessToken ft a.ServiceAcc (resolveDuration a) (resolveScope a),
                .openAppend (w.env (lit "HARNESS_OUTPUT_SECRET_FILE")),
                .write (w.env (lit "HARNESS_OUTPUT_SECRET_FILE"))
                  (lit "GCLOUD_ACCESS_TOKEN=" ++ tok ++ lit "\n")]
            ∧ w1.content (w.env (lit "HARNESS_OUTPUT_SECRET_FILE"))
                = w.content (w.env (lit "HARNESS_OUTPUT_SECRET_FILE"))
                  ++ lit "GCLOUD_ACCESS_TOKEN=" ++ tok ++ lit "\n"
            ∧ ∀ q, q ≠ w.env (lit "HARNESS_OUTPUT_SECRET_FILE") → w1.files q = w.files q)
        ∧ ((∀ hist e, w.fsErr hist e = none) → (Exec w a).1 = none))
    ∧ (∀ err,
        w.remote w.trace (.getFederalToken a.OIDCToken a.ProjectID a.PoolID a.ProviderID
          (resolveScope a)) = .error err →
        (Exec w a).1 = some err
        ∧ effectsOf w (Exec w a).2 =
            [.getFederalToken a.OIDCToken a.ProjectID a.PoolID a.ProviderID (resolveScope a)]
        ∧ (Exec w a).2.files = w.files) := by
  have hkey : lit "GCLOUD_ACCESS_TOKEN" ++ lit "=" = lit "GCLOUD_ACCESS_TOKEN=" := by decide
  constructor
  · intro ft tok h1 h2
    refine ⟨?_, ?_, ?_⟩
    · rw [Exec_token_effects w a hv hm]
      simp only [h1, h2]
      refine ⟨_, rfl, ?_⟩
      split
      · right; simp [← hkey]
      · left; rfl
    · intro w1 hex
      rw [Exec_token_result w a hv hm ft tok h1 h2] at hex
      obtain ⟨ht, hc, hf, -, -, -⟩ := WriteSecretOutputToFile_ok _ _ _ _ hex
      simp only [record_env, record_trace, record_content, record_files] at ht hc hf
      refine ⟨?_, ?_, hf⟩
      · apply effectsOf_append
        rw [ht]; simp [← hkey]
      · rw [hc]; simp [← hkey]
    · intro hfs
      rw [Exec_token_result w a hv hm ft tok h1 h2]
      exact WriteSecretOutputToFile_succeeds _ _ _ (hfs _ _) (hfs _ _)
  · intro err h1
    rw [Exec_token_first_fails w a hv hm err h1]
    refine ⟨rfl, ?_, rfl⟩
    apply effectsOf_append
    simp

theorem Exec_token_mode_witness :
    VerifyEnv sampleArgs = none ∧ sampleArgs.CreateCreds = false
    ∧ Exec sampleWorld sampleArgs = (none, (Exec sampleWorld sampleArgs).2)
    ∧ effectsOf sampleWorld (Exec sampleWorld sampleArgs).2
      = [.getFederalToken (lit "tok") (lit "123") (lit "pool") (lit "prov")
          (lit "https://www.googleapis.com/auth/cloud-platform"),
        .getGoogleCloudAccessToken (lit "fed") (lit "sa@x.iam") (lit "1800s")
          (lit "https://www.googleapis.com/auth/cloud-platform"),
        .openAppend (lit "/out/secret"),
        .write (lit "/out/secret") (lit "GCLOUD_ACCESS_TOKEN=acc\n")]
    ∧ (Exec sampleWorld sampleArgs).2.content (lit "/out/secret")
        = lit "GCLOUD_ACCESS_TOKEN=acc\n" :=
  have h := ((Exec_token_mode sampleWorld sampleArgs (by decide) (by decide)).1
    (lit "fed") (lit "acc") rfl rfl).2.1 (Exec sampleWorld sampleArgs).2
    (by rfl)
  ⟨by decide, by decide, by rfl, h.1, h.2.1⟩

/-- What a successful `WriteCredentialsToFile` returns and leaves behind. -/
theorem WriteCredentialsToFile_ok (w w1 : World) (idToken P L R E credsPath : GoString)
    (h : WriteCredentialsToFile w idToken P L R E = (.ok credsPath, w1)) :
    credsPath = homeDirOf w ++ lit "/.config/gcloud"
      ++ lit "/application_default_credentials.json"
    ∧ w1.trace = w.trace ++
        [.mkdirAll (homeDirOf w ++ lit "/tmp"),
          .writeFile (homeDirOf w ++ lit "/tmp" ++ lit "/id_token") idToken,
          .mkdirAll (homeDirOf w ++ lit "/.config/gcloud"),
          .writeFile credsPath
            (MarshalIndent (credentialsData (homeDirOf w ++ lit "/tmp" ++ lit "/id_token")
              P L R E)).1]
    ∧ w1.files = (fun q =>
        if q = credsPath then
          some (MarshalIndent (credentialsData (homeDirOf w ++ lit "/tmp" ++ lit "/id_token")
            P L R E)).1
        else if q = homeDirOf w ++ lit "/tmp" ++ lit "/id_token" then some idToken
        else w.files q)
    ∧ w1.env = w.env ∧ w1.fsErr = w.fsErr ∧ w1.remote = w.remote := by
  simp only [WriteCredentialsToFile, osMkdirAll, osWriteFile, MarshalIndent, record_trace,
    record_fsErr, setFile_fsErr, setFile_trace] at h
  split at h
  · simp at h
  · rename_i h1
    split at h
    · simp at h
    · rename_i h2
      split at h
      · simp at h
      · rename_i h3
        split at h
        · simp at h
        · rename_i h4
          simp only [Prod.mk.injEq, Except.ok.injEq] at h h1 h3
          obtain ⟨hp, rfl⟩ := h
          obtain ⟨-, rfl⟩ := h1
          obtain ⟨-, rfl⟩ := h3
          split at h2
          · simp at h2
          · simp only [Prod.mk.injEq, true_and] at h2
            subst h2
            split at h4
            · simp at h4
            · simp only [Prod.mk.injEq, true_and] at h4
              subst h4
              subst hp
              refine ⟨rfl, by simp [MarshalIndent], ?_, rfl, rfl, rfl⟩
              funext q
              simp only [record_files, World.setFile, MarshalIndent]

/-- The function `WriteCredentialsToFile` succeeds when every file-system call does. -/
theorem WriteCredentialsToFile_succeeds (w : World) (idToken P L R E : GoString)
    (hfs : ∀ hist e, w.fsErr hist e = none) :
    ∃ w1, WriteCredentialsToFile w idToken P L R E
      = (.ok (homeDirOf w ++ lit "/.config/gcloud"
          ++ lit "/application_default_credentials.json"), w1) := by
  simp [WriteCredentialsToFile, osMkdirAll, osWriteFile, MarshalIndent, hfs]

theorem lit_tmp_id_token : lit "/tmp" ++ lit "/id_token" = lit "/tmp/id_token" := by decide

theorem lit_creds_path :
    lit "/.config/gcloud" ++ lit "/application_default_credentials.json"
      = lit "/.config/gcloud/application_default_credentials.json" := by decide

theorem id_token_ne_creds (W : GoString) :
    W ++ lit "/tmp/id_token" ≠ W ++ lit "/.config/gcloud/application_default_credentials.json" := by
  intro h
  have h2 := List.append_cancel_left h
  revert h2
  decide

theorem sortEntries_credentialsData (idTokenPath P L R E : GoString) :
    sortEntries (credentialsData idTokenPath P L R E) =
      [ (lit "audience", .str (lit "//iam.googleapis.com/projects/" ++ P
          ++ lit "/locations/global/workloadIdentityPools/" ++ L ++ lit "/providers/" ++ R)),
        (lit "credential_source", .strMap [(lit "file", idTokenPath)]),
        (lit "service_account_impersonation_url",
          .str (lit "https://iamcredentials.googleapis.com/v1/projects/-/serviceAccounts/"
            ++ E ++ lit ":generateAccessToken")),
        (lit "subject_token_type", .str (lit "urn:ietf:params:oauth:token-type:id_token")),
        (lit "token_url", .str (lit "https://sts.googleapis.com/v1/token")),
        (lit "type", .str (lit "external_account")) ] := by
  rfl

/-- C8: when `DRONE_WORKSPACE` is empty or `/`, a successful `WriteCredentialsToFile`
returns `/home/harness/.config/gcloud/application_default_credentials.json`, writes the
token to `/home/harness/tmp/id_token` and the document to the returned path, and all its
file-system calls are under `/home/harness`; for every other workspace value `W` the
same holds with `W` in place of `/home/harness`. -/
theorem WriteCredentialsToFile_workspace_fallback (w w1 : World)
    (idToken P L R E credsPath : GoString)
    (h : WriteCredentialsToFile w idToken P L R E = (.ok credsPath, w1)) :
    ((w.env (lit "DRONE_WORKSPACE") = lit "" ∨ w.env (lit "DRONE_WORKSPACE") = lit "/") →
      credsPath = lit "/home/harness/.config/gcloud/application_default_credentials.json"
      ∧ w1.files (lit "/home/harness/tmp/id_token") = some idToken
      ∧ w1.files (lit "/home/harness/.config/gcloud/application_default_credentials.json")
        = some (MarshalIndent
            (credentialsData (lit "/home/harness/tmp/id_token") P L R E)).1
      ∧ effectsOf w w1 =
          [.mkdirAll (lit "/home/harness/tmp"),
            .writeFile (lit "/home/harness/tmp/id_token") idToken,
            .mkdirAll (lit "/home/harness/.config/gcloud"),
            .writeFile (lit "/home/harness/.config/gcloud/application_default_credentials.json")
              (MarshalIndent (credentialsData (lit "/home/harness/tmp/id_token") P L R E)).1])
    ∧ (¬(w.env (lit "DRONE_WORKSPACE") = lit "" ∨ w.env (lit "DRONE_WORKSPACE") = lit "/") →
      credsPath = w.env (lit "DRONE_WORKSPACE")
        ++ lit "/.config/gcloud/application_default_credentials.json"
      ∧ w1.files (w.env (lit "DRONE_WORKSPACE") ++ lit "/tmp/id_token") = some idToken
      ∧ w1.files (w.env (lit "DRONE_WORKSPACE")
          ++ lit "/.config/gcloud/application_default_credentials.json")
        = some (MarshalIndent
            (credentialsData (w.env (lit "DRONE_WORKSPACE") ++ lit "/tmp/id_token") P L R E)).1
      ∧ effectsOf w w1 =
          [.mkdirAll (w.env (lit "DRONE_WORKSPACE") ++ lit "/tmp"),
            .writeFile (w.env (lit "DRONE_WORKSPACE") ++ lit "/tmp/id_token") idToken,
            .mkdirAll (w.env (lit "DRONE_WORKSPACE") ++ lit "/.config/gcloud"),
            .writeFile (w.env (lit "DRONE_WORKSPACE")
                ++ lit "/.config/gcloud/application_default_credentials.json")
              (MarshalIndent (credentialsData
                (w.env (lit "DRONE_WORKSPACE") ++ lit "/tmp/id_token") P L R E)).1]) := by
  obtain ⟨hp, ht, hf, -, -, -⟩ := WriteCredentialsToFile_ok w w1 idToken P L R E credsPath h
  rw [List.append_assoc, lit_creds_path] at hp
  rw [List.append_assoc, lit_tmp_id_token] at hf ht
  subst hp
  have hgen : w1.files (homeDirOf w ++ lit "/tmp/id_token") = some idToken
      ∧ w1.files (homeDirOf w ++ lit "/.config/gcloud/application_default_credentials.json")
        = some (MarshalIndent
            (credentialsData (homeDirOf w ++ lit "/tmp/id_token") P L R E)).1
      ∧ effectsOf w w1 =
          [.mkdirAll (homeDirOf w ++ lit "/tmp"),
            .writeFile (homeDirOf w ++ lit "/tmp/id_token") idToken,
            .mkdirAll (homeDirOf w ++ lit "/.config/gcloud"),
            .writeFile (homeDirOf w ++ lit "/.config/gcloud/application_default_credentials.json")
              (MarshalIndent (credentialsData (homeDirOf w ++ lit "/tmp/id_token") P L R E)).1] := by
    refine ⟨?_, ?_, effectsOf_append w w1 _ ht⟩
    · rw [hf]; simp only [id_token_ne_creds, if_false, if_true]
    · rw [hf]; simp
  constructor
  · intro hw
    have hH : homeDirOf w = lit "/home/harness" := by
      simp only [homeDirOf, osGetenv, hw, if_true]
    rw [hH] at hgen ⊢
    have p1 : lit "/home/harness" ++ lit "/tmp/id_token" = lit "/home/harness/tmp/id_token" := by
      decide
    have p2 : lit "/home/harness" ++ lit "/.config/gcloud/application_default_credentials.json"
        = lit "/home/harness/.config/gcloud/application_default_credentials.json" := by decide
    have p3 : lit "/home/harness" ++ lit "/tmp" = lit "/home/harness/tmp" := by decide
    have p4 : lit "/home/harness" ++ lit "/.config/gcloud" = lit "/home/harness/.config/gcloud" := by
      decide
    rw [p1, p2, p3, p4] at hgen
    exact ⟨p2, hgen⟩
  · intro hw
    have hH : homeDirOf w = w.env (lit "DRONE_WORKSPACE") := by
      simp only [homeDirOf, osGetenv, hw, if_false]
    rw [hH] at hgen ⊢
    exact ⟨rfl, hgen⟩

theorem WriteCredentialsToFile_workspace_fallback_witness :
    (rootWorld.env (lit "DRONE_WORKSPACE") = lit "/"
      ∧ (WriteCredentialsToFile rootWorld (lit "tok") (lit "123") (lit "pool") (lit "prov")
          (lit "sa@x.iam")).1
        = .ok (lit "/home/harness/.config/gcloud/application_default_credentials.json")
      ∧ (WriteCredentialsToFile rootWorld (lit "tok") (lit "123") (lit "pool") (lit "prov")
          (lit "sa@x.iam")).2.files (lit "/home/harness/tmp/id_token") = some (lit "tok"))
    ∧ (sampleWorld.env (lit "DRONE_WORKSPACE") = lit "/ws"
      ∧ (WriteCredentialsToFile sampleWorld (lit "tok") (lit "123") (lit "pool") (lit "prov")
          (lit "sa@x.iam")).1
        = .ok (lit "/ws/.config/gcloud/application_default_credentials.json")
      ∧ (WriteCredentialsToFile sampleWorld (lit "tok") (lit "123") (lit "pool") (lit "prov")
          (lit "sa@x.iam")).2.files (sampleWorld.env (lit "DRONE_WORKSPACE")
            ++ lit "/tmp/id_token") = some (lit "tok")) :=
  ⟨⟨by decide, by rfl,
      ((WriteCredentialsToFile_workspace_fallback rootWorld _ (lit "tok") (lit "123")
        (lit "pool") (lit "prov") (lit "sa@x.iam")
        (lit "/home/harness/.config/gcloud/application_default_credentials.json")
        (by rfl)).1 (Or.inr (by decide))).2.1⟩,
    ⟨by decide, by rfl,
      ((WriteCredentialsToFile_workspace_fallback sampleWorld _ (lit "tok") (lit "123")
        (lit "pool") (lit "prov") (lit "sa@x.iam")
        (lit "/ws/.config/gcloud/application_default_credentials.json")
        (by rfl)).2 (by decide)).2.1⟩⟩

/-- C6: in credentials-file mode with valid required fields, on a file system on which
every call succeeds, `Exec` succeeds and its effects are the four file-system calls of
`WriteCredentialsToFile` followed by the opening of the plain output destination and the
write of the line `GOOGLE_APPLICATION_CREDENTIALS=<credsPath>`, newline-terminated, where
`credsPath` is the path returned by `WriteCredentialsToFile`, at which the JSON document
was written.  None of the effects is a remote call, the line is appended to the plain
destination, and every file other than the plain destination, the credentials file and
the token file (the secret destination among them) is left as it was. -/
theorem Exec_credentials_mode (w : World) (a : Args) (hv : VerifyEnv a = none)
    (hm : a.CreateCreds = true) (hfs : ∀ hist e, w.fsErr hist e = none) :
    ∃ (w1 w2 : World) (credsPath json : GoString),
      WriteCredentialsToFile w a.OIDCToken a.ProjectID a.PoolID a.ProviderID a.ServiceAcc
        = (.ok credsPath, w1)
      ∧ w1.files credsPath = some json
      ∧ Exec w a = (none, w2)
      ∧ effectsOf w w2 =
          [.mkdirAll (homeDirOf w ++ lit "/tmp"),
            .writeFile (homeDirOf w ++ lit "/tmp/id_token") a.OIDCToken,
            .mkdirAll (homeDirOf w ++ lit "/.config/gcloud"),
            .writeFile credsPath json,
            .openAppend (w.env (lit "DRONE_OUTPUT")),
            .write (w.env (lit "DRONE_OUTPUT"))
              (lit "GOOGLE_APPLICATION_CREDENTIALS=" ++ credsPath ++ lit "\n")]
      ∧ (∀ e ∈ effectsOf w w2, e.isRemote = false)
      ∧ w2.content (w.env (lit "DRONE_OUTPUT"))
          = w1.content (w.env (lit "DRONE_OUTPUT"))
            ++ lit "GOOGLE_APPLICATION_CREDENTIALS=" ++ credsPath ++ lit "\n"
      ∧ (∀ q, q ≠ w.env (lit "DRONE_OUTPUT") → q ≠ credsPath →
          q ≠ homeDirOf w ++ lit "/tmp/id_token" → w2.files q = w.files q) := by
  have hkey : lit "GOOGLE_APPLICATION_CREDENTIALS" ++ lit "="
      = lit "GOOGLE_APPLICATION_CREDENTIALS=" := by decide
  obtain ⟨w1, h1⟩ := WriteCredentialsToFile_succeeds w a.OIDCToken a.ProjectID a.PoolID
    a.ProviderID a.ServiceAcc hfs
  obtain ⟨-, ht, hf, he, hfe, -⟩ := WriteCredentialsToFile_ok w w1 _ _ _ _ _ _ h1
  simp only [List.append_assoc, lit_tmp_id_token, lit_creds_path] at ht hf h1
  have hfs1 : ∀ hist e, w1.fsErr hist e = none := by rw [hfe]; exact hfs
  have hex : Exec w a = WriteOutputToFile w1 (lit "GOOGLE_APPLICATION_CREDENTIALS")
      (homeDirOf w ++ lit "/.config/gcloud/application_default_credentials.json") := by
    simp only [Exec, hv, hm, if_true, h1]
    generalize WriteOutputToFile _ _ _ = r
    rcases r with ⟨_ | e, w3⟩ <;> rfl
  have hsucc := WriteOutputToFile_succeeds w1 (lit "GOOGLE_APPLICATION_CREDENTIALS")
    (homeDirOf w ++ lit "/.config/gcloud/application_default_credentials.json")
    (hfs1 _ _) (hfs1 _ _)
  obtain ⟨w2, h2⟩ : ∃ w2, WriteOutputToFile w1 (lit "GOOGLE_APPLICATION_CREDENTIALS")
      (homeDirOf w ++ lit "/.config/gcloud/application_default_credentials.json")
        = (none, w2) :=
    ⟨_, Prod.ext hsucc rfl⟩
  obtain ⟨ht2, hc2, hf2, -, -, -⟩ := WriteOutputToFile_ok _ _ _ _ h2
  rw [he] at ht2 hc2 hf2
  have heff : effectsOf w w2 =
      [.mkdirAll (homeDirOf w ++ lit "/tmp"),
        .writeFile (homeDirOf w ++ lit "/tmp/id_token") a.OIDCToken,
        .mkdirAll (homeDirOf w ++ lit "/.config/gcloud"),
        .writeFile (homeDirOf w ++ lit "/.config/gcloud/application_default_credentials.json")
          (MarshalIndent (credentialsData (homeDirOf w ++ lit "/tmp/id_token") a.ProjectID
            a.PoolID a.ProviderID a.ServiceAcc)).1,
        .openAppend (w.env (lit "DRONE_OUTPUT")),
        .write (w.env (lit "DRONE_OUTPUT"))
          (lit "GOOGLE_APPLICATION_CREDENTIALS="
            ++ (homeDirOf w ++ lit "/.config/gcloud/application_default_credentials.json")
            ++ lit "\n")] := by
    apply effectsOf_append
    rw [ht2, ht]
    simp [← hkey]
  refine ⟨w1, w2, _, _, h1, ?_, hex.trans h2, heff, ?_, ?_, ?_⟩
  · rw [hf]; simp only [if_true]
  · intro e hmem
    rw [heff] at hmem
    simp only [List.mem_cons, List.mem_singleton, List.not_mem_nil, or_false] at hmem
    rcases hmem with rfl | rfl | rfl | rfl | rfl | rfl <;> rfl
  · rw [hc2]; simp [← hkey]
  · intro q hq1 hq2 hq3
    rw [hf2 q hq1, hf]
    simp only [hq2, hq3, if_false]

theorem Exec_credentials_mode_witness :
    VerifyEnv sampleCredsArgs = none ∧ sampleCredsArgs.CreateCreds = true
    ∧ (Exec sampleWorld sampleCredsArgs).1 = none
    ∧ effectsOf sampleWorld (Exec sampleWorld sampleCredsArgs).2 =
        [.mkdirAll (lit "/ws/tmp"),
          .writeFile (lit "/ws/tmp/id_token") (lit "tok"),
          .mkdirAll (lit "/ws/.config/gcloud"),
          .writeFile (lit "/ws/.config/gcloud/application_default_credentials.json")
            (MarshalIndent (credentialsData (lit "/ws/tmp/id_token") (lit "123") (lit "pool")
              (lit "prov") (lit "sa@x.iam"))).1,
          .openAppend (lit "/out/plain"),
          .write (lit "/out/plain")
            (lit "GOOGLE_APPLICATION_CREDENTIALS=/ws/.config/gcloud/application_default_credentials.json\n")] :=
  match Exec_credentials_mode sampleWorld sampleCredsArgs (by decide) (by decide)
      (fun _ _ => rfl) with
  | ⟨_, _, _, _, _, _, h3, _⟩ => ⟨by decide, by decide, by rw [h3], by decide⟩

/-- C9: a successful `WriteOutputToFile` (resp. `WriteSecretOutputToFile`) leaves its
destination equal to its prior content followed by `key=value` and a newline, and leaves
every other file, hence the other destination, unchanged; two successful writes in a row
to the same destination leave the prior content followed by both lines in write
order. -/
theorem output_sink_is_append_only (w : World) (k v : GoString) :
    (∀ w1, WriteOutputToFile w k v = (none, w1) →
      w1.content (w.env (lit "DRONE_OUTPUT"))
        = w.content (w.env (lit "DRONE_OUTPUT")) ++ k ++ lit "=" ++ v ++ lit "\n"
      ∧ ∀ q, q ≠ w.env (lit "DRONE_OUTPUT") → w1.files q = w.files q)
    ∧ (∀ w1, WriteSecretOutputToFile w k v = (none, w1) →
      w1.content (w.env (lit "HARNESS_OUTPUT_SECRET_FILE"))
        = w.content (w.env (lit "HARNESS_OUTPUT_SECRET_FILE")) ++ k ++ lit "=" ++ v ++ lit "\n"
      ∧ ∀ q, q ≠ w.env (lit "HARNESS_OUTPUT_SECRET_FILE") → w1.files q = w.files q)
    ∧ (∀ k2 v2 w1 w2, WriteOutputToFile w k v = (none, w1) →
      WriteOutputToFile w1 k2 v2 = (none, w2) →
      w2.content (w.env (lit "DRONE_OUTPUT"))
        = w.content (w.env (lit "DRONE_OUTPUT")) ++ (k ++ lit "=" ++ v ++ lit "\n")
          ++ (k2 ++ lit "=" ++ v2 ++ lit "\n"))
    ∧ (∀ k2 v2 w1 w2, WriteSecretOutputToFile w k v = (none, w1) →
      WriteSecretOutputToFile w1 k2 v2 = (none, w2) →
      w2.content (w.env (lit "HARNESS_OUTPUT_SECRET_FILE"))
        = w.content (w.env (lit "HARNESS_OUTPUT_SECRET_FILE"))
          ++ (k ++ lit "=" ++ v ++ lit "\n") ++ (k2 ++ lit "=" ++ v2 ++ lit "\n")) := by
  refine ⟨?_, ?_, ?_, ?_⟩
  · intro w1 h
    obtain ⟨-, hc, hf, -, -, -⟩ := WriteOutputToFile_ok w k v w1 h
    exact ⟨by rw [hc]; simp, hf⟩
  · intro w1 h
    obtain ⟨-, hc, hf, -, -, -⟩ := WriteSecretOutputToFile_ok w k v w1 h
    exact ⟨by rw [hc]; simp, hf⟩
  · intro k2 v2 w1 w2 h1 h2
    obtain ⟨-, hc, -, he, -, -⟩ := WriteOutputToFile_ok w k v w1 h1
    obtain ⟨-, hc2, -, -, -, -⟩ := WriteOutputToFile_ok w1 k2 v2 w2 h2
    rw [he] at hc2
    rw [hc2, hc]
  · intro k2 v2 w1 w2 h1 h2
    obtain ⟨-, hc, -, he, -, -⟩ := WriteSecretOutputToFile_ok w k v w1 h1
    obtain ⟨-, hc2, -, -, -, -⟩ := WriteSecretOutputToFile_ok w1 k2 v2 w2 h2
    rw [he] at hc2
    rw [hc2, hc]

theorem output_sink_is_append_only_witness :
    WriteOutputToFile sampleWorld (lit "A") (lit "1")
      = (none, (WriteOutputToFile sampleWorld (lit "A") (lit "1")).2)
    ∧ WriteOutputToFile (WriteOutputToFile sampleWorld (lit "A") (lit "1")).2 (lit "B") (lit "2")
      = (none, (WriteOutputToFile (WriteOutputToFile sampleWorld (lit "A") (lit "1")).2
          (lit "B") (lit "2")).2)
    ∧ (WriteOutputToFile (WriteOutputToFile sampleWorld (lit "A") (lit "1")).2
          (lit "B") (lit "2")).2.content (lit "/out/plain") = lit "A=1\nB=2\n"
    ∧ (WriteOutputToFile sampleWorld (lit "A") (lit "1")).2.files (lit "/out/secret") = none :=
  ⟨by rfl, by rfl,
    (output_sink_is_append_only sampleWorld (lit "A") (lit "1")).2.2.1 (lit "B") (lit "2") _ _
      (by rfl) (by rfl),
    ((output_sink_is_append_only sampleWorld (lit "A") (lit "1")).1 _ (by rfl)).2
      (lit "/out/secret") (by decide)⟩

/-- The outcomes of `decodeRune` on a non-empty string. -/
theorem decodeRune_cases (s0 : Nat) (t : GoString) :
    (s0 < 0x80 ∧ decodeRune (s0 :: t) = (s0, 1))
    ∨ (0x80 ≤ s0 ∧ decodeRune (s0 :: t) = (RuneError, 1))
    ∨ (∃ s1 t1, t = s1 :: t1 ∧ 0xC2 ≤ s0 ∧ s0 < 0xE0 ∧ 0x80 ≤ s1 ∧ s1 ≤ 0xBF
        ∧ (acceptLo s0 ≤ s1 ∧ s1 ≤ acceptHi s0)
        ∧ decodeRune (s0 :: t) = (s0 % 32 * 64 + s1 % 64, 2))
    ∨ (∃ s1 s2 t1, t = s1 :: s2 :: t1 ∧ 0xE0 ≤ s0 ∧ s0 < 0xF0
        ∧ acceptLo s0 ≤ s1 ∧ s1 ≤ acceptHi s0 ∧ 0x80 ≤ s2 ∧ s2 ≤ 0xBF
        ∧ decodeRune (s0 :: t) = (s0 % 16 * 4096 + s1 % 64 * 64 + s2 % 64, 3))
    ∨ (∃ s1 s2 s3 t1, t = s1 :: s2 :: s3 :: t1 ∧ 0xF0 ≤ s0 ∧ s0 ≤ 0xF4
        ∧ acceptLo s0 ≤ s1 ∧ s1 ≤ acceptHi s0 ∧ 0x80 ≤ s2 ∧ s2 ≤ 0xBF ∧ 0x80 ≤ s3 ∧ s3 ≤ 0xBF
        ∧ decodeRune (s0 :: t)
          = (s0 % 8 * 262144 + s1 % 64 * 4096 + s2 % 64 * 64 + s3 % 64, 4)) := by
  by_cases h1 : s0 < 0x80
  · left; exact ⟨h1, by simp [decodeRune, h1]⟩
  right
  by_cases h2 : s0 < 0xC2 ∨ 0xF4 < s0
  · left; exact ⟨by omega, by simp [decodeRune, h1, h2]⟩
  by_cases h3 : s0 < 0xE0
  · cases t with
    | nil => left; exact ⟨by omega, by simp [decodeRune, h1, h2, h3]⟩
    | cons s1 t1 =>
      by_cases h4 : acceptLo s0 ≤ s1 ∧ s1 ≤ acceptHi s0
      · right; left
        refine ⟨s1, t1, rfl, by omega, h3, ?_, ?_, h4, by simp [decodeRune, h1, h2, h3, h4]⟩
        · have := h4.1; simp only [acceptLo] at this; split_ifs at this <;> omega
        · have := h4.2; simp only [acceptHi] at this; split_ifs at this <;> omega
      · left; exact ⟨by omega, by simp [decodeRune, h1, h2, h3, h4]⟩
  by_cases h5 : s0 < 0xF0
  · match t with
    | [] => left; exact ⟨by omega, by simp [decodeRune, h1, h2, h3, h5]⟩
    | [_] => left; exact ⟨by omega, by simp [decodeRune, h1, h2, h3, h5]⟩
    | s1 :: s2 :: t1 =>
      by_cases h4 : acceptLo s0 ≤ s1 ∧ s1 ≤ acceptHi s0
      · by_cases h6 : 0x80 ≤ s2 ∧ s2 ≤ 0xBF
        · right; right; left
          exact ⟨s1, s2, t1, rfl, by omega, h5, h4.1, h4.2, h6.1, h6.2,
            by simp [decodeRune, h1, h2, h3, h5, h4, h6]⟩
        · left; exact ⟨by omega, by simp [decodeRune, h1, h2, h3, h5, h4, h6]⟩
      · left; exact ⟨by omega, by simp [decodeRune, h1, h2, h3, h5, h4]⟩
  · match t with
    | [] => left; exact ⟨by omega, by simp [decodeRune, h1, h2, h3, h5]⟩
    | [_] => left; exact ⟨by omega, by simp [decodeRune, h1, h2, h3, h5]⟩
    | [_, _] => left; exact ⟨by omega, by simp [decodeRune, h1, h2, h3, h5]⟩
    | s1 :: s2 :: s3 :: t1 =>
      by_cases h4 : acceptLo s0 ≤ s1 ∧ s1 ≤ acceptHi s0
      · by_cases h6 : 0x80 ≤ s2 ∧ s2 ≤ 0xBF
        · by_cases h7 : 0x80 ≤ s3 ∧ s3 ≤ 0xBF
          · right; right; right
            exact ⟨s1, s2, s3, t1, rfl, by omega, by omega, h4.1, h4.2, h6.1, h6.2, h7.1, h7.2,
              by simp [decodeRune, h1, h2, h3, h5, h4, h6, h7]⟩
          · left; exact ⟨by omega, by simp [decodeRune, h1, h2, h3, h5, h4, h6, h7]⟩
        · left; exact ⟨by omega, by simp [decodeRune, h1, h2, h3, h5, h4, h6]⟩
      · left; exact ⟨by omega, by simp [decodeRune, h1, h2, h3, h5, h4]⟩

/-- A rune read by `decodeRune` is at least one byte wide. -/
theorem decodeRune_size_pos (s0 : Nat) (t : GoString) : 1 ≤ (decodeRune (s0 :: t)).2 := by
  rcases decodeRune_cases s0 t with ⟨-, h⟩ | ⟨-, h⟩ | ⟨_, _, -, -, -, -, -, -, h⟩
    | ⟨_, _, _, -, -, -, -, -, -, -, h⟩ | ⟨_, _, _, _, -, -, -, -, -, -, -, -, -, h⟩ <;>
    rw [h] <;> simp

/-- A well-formed sequence at the head of a string is the encoding of the rune
read from it, and it determines that rune whatever follows. -/
theorem decodeRune_wellFormed (s0 : Nat) (t : GoString)
    (h : ¬((decodeRune (s0 :: t)).1 = RuneError ∧ (decodeRune (s0 :: t)).2 = 1)) :
    (decodeRune (s0 :: t)).2 ≤ (s0 :: t).length
    ∧ encodeRune (decodeRune (s0 :: t)).1 = (s0 :: t).take (decodeRune (s0 :: t)).2
    ∧ ∀ x : GoString,
        decodeRune ((s0 :: t).take (decodeRune (s0 :: t)).2 ++ x) = decodeRune (s0 :: t) := by
  rcases decodeRune_cases s0 t with ⟨h0, hd⟩ | ⟨-, hd⟩
    | ⟨s1, t1, rfl, h0, h0', h1, h1', hacc, hd⟩
    | ⟨s1, s2, t1, rfl, h0, h0', h1, h1', h2, h2', hd⟩
    | ⟨s1, s2, s3, t1, rfl, h0, h0', h1, h1', h2, h2', h3, h3', hd⟩
  · rw [hd]
    refine ⟨by simp, by simp [encodeRune, h0], fun x => ?_⟩
    simp [decodeRune, h0]
  · rw [hd] at h; simp at h
  · rw [hd]
    refine ⟨by simp, ?_, fun x => ?_⟩
    · have e1 : ¬ (s0 % 32 * 64 + s1 % 64 < 0x80) := by omega
      have e2 : s0 % 32 * 64 + s1 % 64 < 0x800 := by omega
      have e3 : 0xC0 + (s0 % 32 * 64 + s1 % 64) / 64 = s0 := by omega
      have e4 : 0x80 + (s0 % 32 * 64 + s1 % 64) % 64 = s1 := by omega
      simp only [encodeRune, e1, e2, if_true, if_false, e3, e4]
      rfl
    · have a1 : ¬ s0 < 0x80 := by omega
      have a2 : ¬ (s0 < 0xC2 ∨ 0xF4 < s0) := by omega
      simp [decodeRune, a1, a2, h0', hacc]
  · rw [hd]
    have hacc : acceptLo s0 ≤ s1 ∧ s1 ≤ acceptHi s0 := ⟨h1, h1'⟩
    simp only [acceptLo, acceptHi] at h1 h1'
    refine ⟨by simp, ?_, fun x => ?_⟩
    · have e1 : ¬ (s0 % 16 * 4096 + s1 % 64 * 64 + s2 % 64 < 0x80) := by
        split_ifs at h1 h1' <;> omega
      have e2 : ¬ (s0 % 16 * 4096 + s1 % 64 * 64 + s2 % 64 < 0x800) := by
        split_ifs at h1 h1' <;> omega
      have e3 : ¬ (0x10FFFF < s0 % 16 * 4096 + s1 % 64 * 64 + s2 % 64
          ∨ (0xD800 ≤ s0 % 16 * 4096 + s1 % 64 * 64 + s2 % 64
            ∧ s0 % 16 * 4096 + s1 % 64 * 64 + s2 % 64 ≤ 0xDFFF)) := by
        split_ifs at h1 h1' <;> omega
      have e4 : s0 % 16 * 4096 + s1 % 64 * 64 + s2 % 64 < 0x10000 := by omega
      have e5 : 0xE0 + (s0 % 16 * 4096 + s1 % 64 * 64 + s2 % 64) / 4096 = s0 := by omega
      have e6 : 0x80 + (s0 % 16 * 4096 + s1 % 64 * 64 + s2 % 64) / 64 % 64 = s1 := by
        split_ifs at h1 h1' <;> omega
      have e7 : 0x80 + (s0 % 16 * 4096 + s1 % 64 * 64 + s2 % 64) % 64 = s2 := by omega
      simp only [encodeRune, e1, e2, e3, e4, if_true, if_false, e5, e6, e7]
      rfl
    · have a1 : ¬ s0 < 0x80 := by omega
      have a2 : ¬ (s0 < 0xC2 ∨ 0xF4 < s0) := by omega
      have a3 : ¬ s0 < 0xE0 := by omega
      simp [decodeRune, a1, a2, a3, h0', hacc, h2, h2']
  · rw [hd]
    have hacc : acceptLo s0 ≤ s1 ∧ s1 ≤ acceptHi s0 := ⟨h1, h1'⟩
    simp only [acceptLo, acceptHi] at h1 h1'
    refine ⟨by simp, ?_, fun x => ?_⟩
    · have e1 : ¬ (s0 % 8 * 262144 + s1 % 64 * 4096 + s2 % 64 * 64 + s3 % 64 < 0x80) := by
        split_ifs at h1 h1' <;> omega
      have e2 : ¬ (s0 % 8 * 262144 + s1 % 64 * 4096 + s2 % 64 * 64 + s3 % 64 < 0x800) := by
        split_ifs at h1 h1' <;> omega
      have e3 : ¬ (0x10FFFF < s0 % 8 * 262144 + s1 % 64 * 4096 + s2 % 64 * 64 + s3 % 64
          ∨ (0xD800 ≤ s0 % 8 * 262144 + s1 % 64 * 4096 + s2 % 64 * 64 + s3 % 64
            ∧ s0 % 8 * 262144 + s1 % 64 * 4096 + s2 % 64 * 64 + s3 % 64 ≤ 0xDFFF)) := by
        split_ifs at h1 h1' <;> omega
      have e4 : ¬ (s0 % 8 * 262144 + s1 % 64 * 4096 + s2 % 64 * 64 + s3 % 64 < 0x10000) := by
        split_ifs at h1 h1' <;> omega
      have e5 : 0xF0 + (s0 % 8 * 262144 + s1 % 64 * 4096 + s2 % 64 * 64 + s3 % 64) / 262144
          = s0 := by
        split_ifs at h1 h1' <;> omega
      have e6 : 0x80 + (s0 % 8 * 262144 + s1 % 64 * 4096 + s2 % 64 * 64 + s3 % 64) / 4096 % 64
          = s1 := by
        split_ifs at h1 h1' <;> omega
      have e7 : 0x80 + (s0 % 8 * 262144 + s1 % 64 * 4096 + s2 % 64 * 64 + s3 % 64) / 64 % 64
          = s2 := by omega
      have e8 : 0x80 + (s0 % 8 * 262144 + s1 % 64 * 4096 + s2 % 64 * 64 + s3 % 64) % 64
          = s3 := by omega
      simp only [encodeRune, e1, e2, e3, e4, if_true, if_false, e5, e6, e7, e8]
      rfl
    · have a1 : ¬ s0 < 0x80 := by omega
      have a2 : ¬ (s0 < 0xC2 ∨ 0xF4 < s0) := by omega
      have a3 : ¬ s0 < 0xE0 := by omega
      have a4 : ¬ s0 < 0xF0 := by omega
      simp [decodeRune, a1, a2, a3, a4, hacc, h2, h2', h3, h3']

theorem validStringAux_nil (fuel : Nat) : validStringAux fuel [] = true := by
  cases fuel <;> rfl

/-- More fuel does not change a positive answer of `validStringAux`. -/
theorem validStringAux_mono (fuel k : Nat) (s : GoString)
    (h : validStringAux fuel s = true) : validStringAux (fuel + k) s = true := by
  induction fuel generalizing s with
  | zero =>
    cases s with
    | nil => exact validStringAux_nil _
    | cons b rest => simp [validStringAux] at h
  | succ n ih =>
    cases s with
    | nil => exact validStringAux_nil _
    | cons b rest =>
      rw [show n + 1 + k = (n + k) + 1 by omega]
      simp only [validStringAux] at h ⊢
      split_ifs at h ⊢ with hbad
      exact ih _ h

theorem validStringAux_append (fuel : Nat) (a b : GoString) (fb : Nat)
    (ha : validStringAux fuel a = true) (hb : validStringAux fb b = true) :
    validStringAux (fuel + fb) (a ++ b) = true := by
  induction fuel generalizing a with
  | zero =>
    cases a with
    | nil => simpa using hb
    | cons c rest => simp [validStringAux] at ha
  | succ n ih =>
    cases a with
    | nil =>
      rw [List.nil_append, Nat.add_comm]
      exact validStringAux_mono fb (n + 1) b hb
    | cons c rest =>
      simp only [validStringAux] at ha
      split_ifs at ha with hbad
      obtain ⟨hle, -, hpre⟩ := decodeRune_wellFormed c rest hbad
      have hsplit : c :: rest ++ b
          = (c :: rest).take (decodeRune (c :: rest)).2
            ++ ((c :: rest).drop (decodeRune (c :: rest)).2 ++ b) := by
        rw [← List.append_assoc, List.take_append_drop]
      have hdec : decodeRune (c :: (rest ++ b)) = decodeRune (c :: rest) := by
        have := hpre ((c :: rest).drop (decodeRune (c :: rest)).2 ++ b)
        rw [← hsplit] at this
        exact this
      have hdrop : (c :: (rest ++ b)).drop (decodeRune (c :: rest)).2
          = (c :: rest).drop (decodeRune (c :: rest)).2 ++ b := by
        rw [← List.cons_append, List.drop_append_of_le_length hle]
      rw [show n + 1 + fb = (n + fb) + 1 by omega, List.cons_append]
      simp only [validStringAux, hdec, hbad, if_false, hdrop]
      exact ih _ ha

/-- Well-formed UTF-8 strings are closed under concatenation. -/
theorem ValidString_append (a b : GoString) (ha : ValidString a = true)
    (hb : ValidString b = true) : ValidString (a ++ b) = true := by
  unfold ValidString at *
  rw [List.length_append]
  exact validStringAux_append _ a b _ ha hb

theorem hexVal_hex : ∀ d < 16, hexVal (hex d) = some d := by decide

theorem getu4_byte (b : Nat) (hb : b < 256) (x : GoString) :
    getu4 (0x30 :: 0x30 :: hex (b / 16) :: hex (b % 16) :: x) = some b := by
  have h0 : hexVal 0x30 = some 0 := by decide
  have h1 := hexVal_hex (b / 16) (by omega)
  have h2 := hexVal_hex (b % 16) (by omega)
  simp only [getu4, h0, h1, h2]
  congr 1
  omega

/-- One step of the decoder undoes the escape of an ASCII byte. -/
theorem unquoteAux_escapeByte (b : Nat) (hb : b < 0x80) (hs : htmlSafeSet b = false)
    (fuel : Nat) (x acc : GoString) :
    unquoteAux (fuel + 1) (escapeByte b ++ x) acc = unquoteAux fuel x (acc ++ [b]) := by
  unfold escapeByte
  by_cases h1 : b = 0x5C ∨ b = 0x22
  · rcases h1 with rfl | rfl <;> simp [unquoteAux]
  by_cases h2 : b = 0x08
  · simp only [h1, h2, if_true, if_false, show lit "\\b" = [0x5C, 0x62] from by decide]
    simp [unquoteAux]
  by_cases h3 : b = 0x0C
  · simp only [h1, h2, h3, if_true, if_false, show lit "\\f" = [0x5C, 0x66] from by decide]
    simp [unquoteAux]
  by_cases h4 : b = 0x0A
  · simp only [h1, h2, h3, h4, if_true, if_false,
      show lit "\\n" = [0x5C, 0x6E] from by decide]
    simp [unquoteAux]
  by_cases h5 : b = 0x0D
  · simp only [h1, h2, h3, h4, h5, if_true, if_false,
      show lit "\\r" = [0x5C, 0x72] from by decide]
    simp [unquoteAux]
  by_cases h6 : b = 0x09
  · simp only [h1, h2, h3, h4, h5, h6, if_true, if_false,
      show lit "\\t" = [0x5C, 0x74] from by decide]
    simp [unquoteAux]
  have hl : lit "\\u00" = [0x5C, 0x75, 0x30, 0x30] := by decide
  simp only [h1, h2, h3, h4, h5, h6, if_false, hl]
  have hg := getu4_byte b (by omega) x
  have he : encodeRune b = [b] := by simp [encodeRune, hb]
  have hns : ¬(0xD800 ≤ b ∧ b < 0xE000) := by omega
  simp [unquoteAux, hg, he, hns]

/-- One step of the decoder undoes the escape of U+2028 and U+2029. -/
theorem unquoteAux_lineSeparator (c : Nat) (hc : c = 0x2028 ∨ c = 0x2029) (fuel : Nat)
    (x acc : GoString) :
    unquoteAux (fuel + 1) (lit "\\u202" ++ [hex (c % 16)] ++ x) acc
      = unquoteAux fuel x (acc ++ encodeRune c) := by
  have hl : lit "\\u202" = [0x5C, 0x75, 0x32, 0x30, 0x32] := by decide
  rw [hl]
  rcases hc with rfl | rfl
  · have hg : getu4 (0x32 :: 0x30 :: 0x32 :: hex (0x2028 % 16) :: x) = some 0x2028 := by
      simp [getu4, show hexVal 0x32 = some 2 from by decide,
        show hexVal 0x30 = some 0 from by decide,
        show hexVal (hex (0x2028 % 16)) = some 8 from by decide]
    simp [unquoteAux, hg]
  · have hg : getu4 (0x32 :: 0x30 :: 0x32 :: hex (0x2029 % 16) :: x) = some 0x2029 := by
      simp [getu4, show hexVal 0x32 = some 2 from by decide,
        show hexVal 0x30 = some 0 from by decide,
        show hexVal (hex (0x2029 % 16)) = some 9 from by decide]
    simp [unquoteAux, hg]

/-- One step of the decoder copies a well-formed multi-byte sequence. -/
theorem unquoteAux_multibyte (b : Nat) (t : GoString) (hb : ¬b < 0x80)
    (hbad : ¬((decodeRune (b :: t)).1 = RuneError ∧ (decodeRune (b :: t)).2 = 1))
    (fuel : Nat) (x acc : GoString) :
    unquoteAux (fuel + 1) ((b :: t).take (decodeRune (b :: t)).2 ++ x) acc
      = unquoteAux fuel x (acc ++ (b :: t).take (decodeRune (b :: t)).2) := by
  obtain ⟨hle, henc, hpre⟩ := decodeRune_wellFormed b t hbad
  have hpos := decodeRune_size_pos b t
  obtain ⟨m, hm⟩ : ∃ m, (decodeRune (b :: t)).2 = m + 1 := ⟨_, (Nat.sub_add_cancel hpos).symm⟩
  have hx := hpre x
  have hlen : ((b :: t).take (decodeRune (b :: t)).2).length = (decodeRune (b :: t)).2 := by
    rw [List.length_take]; omega
  have hdrop : ((b :: t).take (decodeRune (b :: t)).2 ++ x).drop (decodeRune (b :: t)).2 = x := by
    rw [List.drop_append_of_le_length (by omega), List.drop_of_length_le (by omega),
      List.nil_append]
  have htake : (b :: t).take (decodeRune (b :: t)).2 = b :: t.take m := by
    rw [hm, List.take_succ_cons]
  rw [htake] at hx hdrop henc ⊢
  rw [List.cons_append] at hx hdrop ⊢
  have h1 : ¬ b = 0x22 := by omega
  have h2 : ¬ b = 0x5C := by omega
  have h3 : ¬ b < 0x20 := by omega
  simp only [unquoteAux, h1, h2, h3, hb, if_false, hx, hdrop, henc]

theorem appendStringAux_nil (n : Nat) : appendStringAux n [] = [] := by
  cases n <;> rfl

/-- One step of the decoder copies an ASCII byte that needs no escape. -/
theorem unquoteAux_safe (b : Nat) (hs : htmlSafeSet b = true) (fuel : Nat) (x acc : GoString) :
    unquoteAux (fuel + 1) (b :: x) acc = unquoteAux fuel x (acc ++ [b]) := by
  simp only [htmlSafeSet, decide_eq_true_eq] at hs
  have h1 : ¬ b = 0x22 := by omega
  have h2 : ¬ b = 0x5C := by omega
  have h3 : ¬ b < 0x20 := by omega
  have h4 : b < 0x80 := by omega
  simp only [unquoteAux, h1, h2, h3, h4, if_false, if_true]

theorem escapeByte_length_pos (b : Nat) : 1 ≤ (escapeByte b).length := by
  unfold escapeByte
  split_ifs
  · simp
  · decide
  · decide
  · decide
  · decide
  · decide
  · rw [List.length_append]; simp

/-- Decoding undoes the encoding of the inside of a string literal, for every
well-formed UTF-8 string. -/
theorem unquoteAux_appendStringAux (n : Nat) :
    ∀ (src : GoString), validStringAux n src = true →
      ∀ (fuel : Nat) (rest acc : GoString), (appendStringAux n src).length < fuel →
        unquoteAux fuel (appendStringAux n src ++ 0x22 :: rest) acc = some (acc ++ src, rest) := by
  induction n with
  | zero =>
    intro src hv fuel rest acc hf
    cases src with
    | nil =>
      obtain ⟨f, rfl⟩ : ∃ f, fuel = f + 1 := ⟨fuel - 1, by omega⟩
      simp [appendStringAux, unquoteAux]
    | cons b t => simp [validStringAux] at hv
  | succ n ih =>
    intro src hv fuel rest acc hf
    cases src with
    | nil =>
      obtain ⟨f, rfl⟩ : ∃ f, fuel = f + 1 := ⟨fuel - 1, by omega⟩
      simp [appendStringAux, unquoteAux]
    | cons b t =>
      simp only [validStringAux] at hv
      split_ifs at hv with hbad
      obtain ⟨f, rfl⟩ : ∃ f, fuel = f + 1 := ⟨fuel - 1, by omega⟩
      by_cases hb : b < 0x80
      · have hd : decodeRune (b :: t) = (b, 1) := by simp [decodeRune, hb]
        rw [hd] at hv
        simp only [List.drop_succ_cons, List.drop_zero] at hv
        by_cases hs : htmlSafeSet b = true
        · have henc : appendStringAux (n + 1) (b :: t) = b :: appendStringAux n t := by
            simp [appendStringAux, hb, hs]
          rw [henc] at hf ⊢
          rw [List.cons_append, unquoteAux_safe b hs,
            ih t hv f rest (acc ++ [b]) (by simp at hf; omega)]
          simp
        · have hs' : htmlSafeSet b = false := by simpa using hs
          have henc : appendStringAux (n + 1) (b :: t) = escapeByte b ++ appendStringAux n t := by
            simp [appendStringAux, hb, hs']
          rw [henc] at hf ⊢
          rw [List.append_assoc, unquoteAux_escapeByte b hb hs']
          have hlen := escapeByte_length_pos b
          rw [ih t hv f rest (acc ++ [b]) (by rw [List.length_append] at hf; omega)]
          simp
      · by_cases h28 : (decodeRune (b :: t)).1 = 0x2028 ∨ (decodeRune (b :: t)).1 = 0x2029
        · have henc : appendStringAux (n + 1) (b :: t)
              = lit "\\u202" ++ [hex ((decodeRune (b :: t)).1 % 16)]
                ++ appendStringAux n ((b :: t).drop (decodeRune (b :: t)).2) := by
            simp only [appendStringAux, hb, hbad, h28, if_false, if_true]
          rw [henc] at hf ⊢
          rw [List.append_assoc, unquoteAux_lineSeparator _ h28]
          obtain ⟨-, he, -⟩ := decodeRune_wellFormed b t hbad
          rw [ih _ hv f rest _ (by simp at hf; omega), he, List.append_assoc,
            List.take_append_drop]
        · have henc : appendStringAux (n + 1) (b :: t)
              = (b :: t).take (decodeRune (b :: t)).2
                ++ appendStringAux n ((b :: t).drop (decodeRune (b :: t)).2) := by
            simp only [appendStringAux, hb, hbad, h28, if_false]
          rw [henc] at hf ⊢
          rw [List.append_assoc, unquoteAux_multibyte b t hb hbad]
          have hpos := decodeRune_size_pos b t
          obtain ⟨hle, -, -⟩ := decodeRune_wellFormed b t hbad
          have hlen : ((b :: t).take (decodeRune (b :: t)).2).length
              = (decodeRune (b :: t)).2 := by
            rw [List.length_take]; omega
          rw [ih _ hv f rest _ (by rw [List.length_append, hlen] at hf; omega),
            List.append_assoc, List.take_append_drop]

theorem appendString_eq (src : GoString) :
    appendString src = 0x22 :: (appendStringAux src.length src ++ [0x22]) := by
  have h : lit "\"" = [0x22] := by decide
  simp [appendString, h]

/-- Decoding a string literal written by `appendString` gives back the string,
when it is well-formed UTF-8. -/
theorem decodeString_appendString (src rest : GoString) (hv : ValidString src = true) :
    decodeString (appendString src ++ rest) = some (src, rest) := by
  rw [appendString_eq]
  simp only [decodeString, List.cons_append, if_true, List.append_assoc, List.singleton_append]
  have := unquoteAux_appendStringAux src.length src hv
    (appendStringAux src.length src ++ 0x22 :: rest).length rest [] (by simp)
  simpa using this

theorem skipSpace_cons_of_not_space (c : Nat) (x : GoString) (h : ¬isSpace c) :
    skipSpace (c :: x) = c :: x := by
  unfold isSpace at h
  simp only [skipSpace, h, if_false]

theorem skipSpace_indent (d c : Nat) (x : GoString) (h : ¬isSpace c) :
    skipSpace ((List.replicate d (lit "  ")).flatten ++ c :: x) = c :: x := by
  induction d with
  | zero => simpa using skipSpace_cons_of_not_space c x h
  | succ n ih =>
    have hl : lit "  " = [0x20, 0x20] := by decide
    rw [List.replicate_succ, List.flatten_cons, hl]
    simp only [List.cons_append, List.nil_append, skipSpace, true_or, if_true]
    exact ih

theorem skipSpace_newlineIndent (d c : Nat) (x : GoString) (h : ¬isSpace c) :
    skipSpace (newlineIndent d ++ c :: x) = c :: x := by
  have hl : lit "\n" = [0x0A] := by decide
  unfold newlineIndent
  rw [hl]
  simp only [List.cons_append, List.nil_append, List.append_assoc, skipSpace, true_or, or_true,
    if_true]
  exact skipSpace_indent d c x h

theorem marshalMembers_length {α : Type} (d : Nat) (enc : α → GoString)
    (members : List (GoString × α)) :
    members.length ≤ (marshalMembers d enc members).length := by
  induction members with
  | nil => simp
  | cons e es ih =>
    have hn : 1 ≤ (newlineIndent d).length := by
      unfold newlineIndent
      rw [List.length_append]
      have : (lit "\n").length = 1 := by decide
      omega
    cases es with
    | nil => simp only [marshalMembers, List.length_append, List.length_singleton]; omega
    | cons x xs =>
      simp only [marshalMembers, List.length_append, List.length_cons] at ih ⊢
      omega

/-- Decoding undoes the encoding of the members of an object, given that it
does so for the values. -/
theorem decodeMembers_marshalMembers {α : Type} (d d2 : Nat) (enc : α → GoString)
    (decodeVal : GoString → Option (α × GoString)) (norm : α → α) :
    ∀ (members : List (GoString × α)), members ≠ [] →
      (∀ e ∈ members, ValidString e.1 = true) →
      (∀ e ∈ members, ∀ rest, decodeVal (enc e.2 ++ rest) = some (norm e.2, rest)) →
      (∀ e ∈ members, ∃ c x, enc e.2 = c :: x ∧ ¬isSpace c) →
      ∀ (fuel : Nat) (acc : List (GoString × α)) (tail : GoString), members.length ≤ fuel →
        decodeMembers decodeVal fuel
            (skipSpace (marshalMembers d enc members ++ (newlineIndent d2 ++ 0x7D :: tail))) acc
          = some (acc ++ members.map (fun e => (e.1, norm e.2)), tail) := by
  have hcolon : lit ": " = [0x3A, 0x20] := by decide
  have hcomma : lit "," = [0x2C] := by decide
  intro members
  induction members with
  | nil => intro h; exact absurd rfl h
  | cons e es ih =>
    intro _ hkeys hvals hstart fuel acc tail hfuel
    obtain ⟨f, rfl⟩ : ∃ f, fuel = f + 1 := ⟨fuel - 1, by simp at hfuel; omega⟩
    have hk := hkeys e (List.mem_cons_self _ _)
    have hv := hvals e (List.mem_cons_self _ _)
    obtain ⟨c, x, hcx, hc⟩ := hstart e (List.mem_cons_self _ _)
    have hq : ¬isSpace 0x22 := by unfold isSpace; omega
    have hco : ¬isSpace 0x3A := by unfold isSpace; omega
    have hcm : ¬isSpace 0x2C := by unfold isSpace; omega
    have hbr : ¬isSpace 0x7D := by unfold isSpace; omega
    cases es with
    | nil =>
      have htext : marshalMembers d enc [e] ++ (newlineIndent d2 ++ 0x7D :: tail)
          = newlineIndent d ++ 0x22 :: (appendStringAux e.1.length e.1 ++ [0x22]
            ++ (0x3A :: 0x20 :: (enc e.2 ++ (newlineIndent d2 ++ 0x7D :: tail)))) := by
        simp [marshalMembers, appendString_eq, hcolon]
      rw [htext, skipSpace_newlineIndent _ _ _ hq]
      have hds := decodeString_appendString e.1
        (0x3A :: 0x20 :: (enc e.2 ++ (newlineIndent d2 ++ 0x7D :: tail))) hk
      rw [appendString_eq] at hds
      simp only [List.cons_append, List.append_assoc] at hds ⊢
      simp only [decodeMembers, hds, skipSpace_cons_of_not_space _ _ hco, if_true]
      have hsp : skipSpace (0x20 :: (enc e.2 ++ (newlineIndent d2 ++ 0x7D :: tail)))
          = enc e.2 ++ (newlineIndent d2 ++ 0x7D :: tail) := by
        simp only [skipSpace, true_or, if_true]
        rw [hcx, List.cons_append, skipSpace_cons_of_not_space _ _ hc]
      simp only [hsp, hv, skipSpace_newlineIndent _ _ _ hbr]
      simp
    | cons y ys =>
      have htext : marshalMembers d enc (e :: y :: ys) ++ (newlineIndent d2 ++ 0x7D :: tail)
          = newlineIndent d ++ 0x22 :: (appendStringAux e.1.length e.1 ++ [0x22]
            ++ (0x3A :: 0x20 :: (enc e.2 ++ (0x2C :: (marshalMembers d enc (y :: ys)
              ++ (newlineIndent d2 ++ 0x7D :: tail)))))) := by
        simp [marshalMembers, appendString_eq, hcolon, hcomma]
      rw [htext, skipSpace_newlineIndent _ _ _ hq]
      have hds := decodeString_appendString e.1
        (0x3A :: 0x20 :: (enc e.2 ++ (0x2C :: (marshalMembers d enc (y :: ys)
          ++ (newlineIndent d2 ++ 0x7D :: tail))))) hk
      rw [appendString_eq] at hds
      simp only [List.cons_append, List.append_assoc] at hds ⊢
      simp only [decodeMembers, hds, skipSpace_cons_of_not_space _ _ hco, if_true]
      have hsp : skipSpace (0x20 :: (enc e.2 ++ (0x2C :: (marshalMembers d enc (y :: ys)
            ++ (newlineIndent d2 ++ 0x7D :: tail)))))
          = enc e.2 ++ (0x2C :: (marshalMembers d enc (y :: ys)
            ++ (newlineIndent d2 ++ 0x7D :: tail))) := by
        simp only [skipSpace, true_or, if_true]
        rw [hcx, List.cons_append, skipSpace_cons_of_not_space _ _ hc]
      simp only [hsp, hv, skipSpace_cons_of_not_space _ _ hcm, if_true]
      rw [ih (List.cons_ne_nil _ _)
        (fun e' he' => hkeys e' (List.mem_cons_of_mem _ he'))
        (fun e' he' => hvals e' (List.mem_cons_of_mem _ he'))
        (fun e' he' => hstart e' (List.mem_cons_of_mem _ he'))
        f (acc ++ [(e.1, norm e.2)]) tail (by simp at hfuel ⊢; omega)]
      simp

theorem marshalObject_start {α : Type} (d : Nat) (enc : α → GoString)
    (members : List (GoString × α)) :
    ∃ y, marshalObject d enc members = 0x7B :: y := by
  cases members with
  | nil => exact ⟨[0x7D], by simp only [marshalObject]; decide⟩
  | cons e es =>
    refine ⟨marshalMembers (d + 1) enc (e :: es) ++ newlineIndent d ++ lit "\x7d", ?_⟩
    simp [marshalObject, show lit "\x7b" = [0x7B] from by decide]

theorem marshalMembers_start {α : Type} (d : Nat) (enc : α → GoString) (e : GoString × α)
    (es : List (GoString × α)) :
    ∃ z, marshalMembers d enc (e :: es) = newlineIndent d ++ 0x22 :: z
      ∧ es.length ≤ z.length := by
  cases es with
  | nil =>
    refine ⟨appendStringAux e.1.length e.1 ++ [0x22] ++ lit ": " ++ enc e.2, ?_, by simp⟩
    simp [marshalMembers, appendString_eq]
  | cons y ys =>
    refine ⟨appendStringAux e.1.length e.1 ++ [0x22] ++ lit ": " ++ enc e.2 ++ lit ","
      ++ marshalMembers d enc (y :: ys), ?_, ?_⟩
    · simp [marshalMembers, appendString_eq]
    · have hl := marshalMembers_length d enc (y :: ys)
      simp only [List.length_append] at hl ⊢
      omega

/-- Decoding undoes the encoding of an object, given that it does so for the
values. -/
theorem decodeObject_marshalObject {α : Type} (d : Nat) (enc : α → GoString)
    (decodeVal : GoString → Option (α × GoString)) (norm : α → α)
    (members : List (GoString × α))
    (hkeys : ∀ e ∈ members, ValidString e.1 = true)
    (hvals : ∀ e ∈ members, ∀ rest, decodeVal (enc e.2 ++ rest) = some (norm e.2, rest))
    (hstart : ∀ e ∈ members, ∃ c x, enc e.2 = c :: x ∧ ¬isSpace c)
    (tail : GoString) :
    decodeObject decodeVal (marshalObject d enc members ++ tail)
      = some (members.map (fun e => (e.1, norm e.2)), tail) := by
  have hbr : ¬isSpace 0x7D := by unfold isSpace; omega
  cases members with
  | nil =>
    have h : lit "\x7b\x7d" = [0x7B, 0x7D] := by decide
    simp [marshalObject, h, decodeObject, skipSpace_cons_of_not_space _ _ hbr]
  | cons e es =>
    have ho : lit "\x7b" = [0x7B] := by decide
    have hc : lit "\x7d" = [0x7D] := by decide
    have htext : marshalObject d enc (e :: es) ++ tail
        = 0x7B :: (marshalMembers (d + 1) enc (e :: es) ++ (newlineIndent d ++ 0x7D :: tail)) := by
      simp [marshalObject, ho, hc]
    rw [htext]
    have hmain := decodeMembers_marshalMembers (d + 1) d enc decodeVal norm (e :: es)
      (List.cons_ne_nil _ _) hkeys hvals hstart
    -- the text after the opening brace and the white space starts with a quote
    have hq : ¬isSpace 0x22 := by unfold isSpace; omega
    obtain ⟨z, hz, hzl⟩ := marshalMembers_start (d + 1) enc e es
    have hr : skipSpace (marshalMembers (d + 1) enc (e :: es)
        ++ (newlineIndent d ++ 0x7D :: tail))
        = 0x22 :: (z ++ (newlineIndent d ++ 0x7D :: tail)) := by
      rw [hz, List.append_assoc, List.cons_append]
      exact skipSpace_newlineIndent _ _ _ hq
    have hlen : (e :: es).length ≤ (z ++ (newlineIndent d ++ 0x7D :: tail)).length + 1 := by
      simp only [List.length_cons, List.length_append]
      omega
    have h2 := hmain ((z ++ (newlineIndent d ++ 0x7D :: tail)).length + 1) [] tail hlen
    rw [hr] at h2
    have h7 : ¬ (0x22 : Nat) = 0x7D := by omega
    simp only [decodeObject, if_true, hr, h7, if_false, h2, List.nil_append]

theorem mem_insertEntry {α : Type} (e x : GoString × α) (l : List (GoString × α)) :
    x ∈ insertEntry e l ↔ x = e ∨ x ∈ l := by
  induction l with
  | nil => simp [insertEntry]
  | cons y ys ih =>
    simp only [insertEntry]
    split_ifs
    · simp
    · simp only [List.mem_cons, ih]
      tauto

theorem mem_sortEntries {α : Type} (x : GoString × α) (l : List (GoString × α)) :
    x ∈ sortEntries l ↔ x ∈ l := by
  induction l with
  | nil => simp [sortEntries]
  | cons y ys ih => simp [sortEntries, mem_insertEntry, ih]

/-- Decoding undoes the encoding of a value of the document. -/
theorem decodeValue_marshalValue (d : Nat) (v : Value) (hv : v.valid) (rest : GoString) :
    decodeValue (marshalValue d v ++ rest) = some (v.sorted, rest) := by
  cases v with
  | str s =>
    have h := decodeString_appendString s rest hv
    simp only [marshalValue, Value.sorted]
    rw [appendString_eq] at h ⊢
    simp only [List.cons_append] at h ⊢
    simp only [decodeValue, if_true, h, Option.map_some']
  | strMap m =>
    have hq : ¬isSpace 0x22 := by unfold isSpace; omega
    have h := decodeObject_marshalObject d appendString decodeString id (sortEntries m)
      (fun e he => (hv e ((mem_sortEntries e m).1 he)).1)
      (fun e he r => decodeString_appendString e.2 r (hv e ((mem_sortEntries e m).1 he)).2)
      (fun e _ => ⟨0x22, _, appendString_eq e.2, hq⟩) rest
    simp only [id, Prod.mk.eta, List.map_id'] at h
    simp only [marshalValue, Value.sorted]
    obtain ⟨y, hy⟩ := marshalObject_start d appendString (sortEntries m)
    rw [hy, List.cons_append] at h ⊢
    have h7 : ¬ (0x7B : Nat) = 0x22 := by omega
    simp only [decodeValue, h7, if_false, if_true, h, Option.map_some']

theorem marshalValue_start (d : Nat) (v : Value) :
    ∃ c x, marshalValue d v = c :: x ∧ ¬isSpace c := by
  cases v with
  | str s => exact ⟨0x22, _, appendString_eq s, by unfold isSpace; omega⟩
  | strMap m =>
    obtain ⟨y, hy⟩ := marshalObject_start d appendString (sortEntries m)
    exact ⟨0x7B, y, hy, by unfold isSpace; omega⟩

/-- Decoding the text written by `MarshalIndent` gives back the document, in
the order of its keys, when all its strings are well-formed UTF-8. -/
theorem Unmarshal_MarshalIndent (doc : Document)
    (hvalid : ∀ e ∈ doc, ValidString e.1 = true ∧ e.2.valid) :
    Unmarshal (MarshalIndent doc).1
      = some ((sortEntries doc).map (fun e => (e.1, e.2.sorted))) := by
  have h := decodeObject_marshalObject 0 (marshalValue 1) decodeValue Value.sorted
    (sortEntries doc)
    (fun e he => (hvalid e ((mem_sortEntries e doc).1 he)).1)
    (fun e he r => decodeValue_marshalValue 1 e.2 (hvalid e ((mem_sortEntries e doc).1 he)).2 r)
    (fun e _ => marshalValue_start 1 e.2) []
  rw [List.append_nil] at h
  obtain ⟨y, hy⟩ := marshalObject_start 0 (marshalValue 1) (sortEntries doc)
  have hb : ¬isSpace 0x7B := by unfold isSpace; omega
  simp only [Unmarshal, MarshalIndent]
  rw [hy] at h ⊢
  rw [skipSpace_cons_of_not_space _ _ hb, h]
  simp [skipSpace]

/-- The strings of the credentials document are well-formed UTF-8 when its
inputs are. -/
theorem credentialsData_valid (idTokenPath P L R E : GoString)
    (hT : ValidString idTokenPath = true) (hP : ValidString P = true)
    (hL : ValidString L = true) (hR : ValidString R = true) (hE : ValidString E = true) :
    ∀ e ∈ credentialsData idTokenPath P L R E, ValidString e.1 = true ∧ e.2.valid := by
  intro e he
  simp only [credentialsData, List.mem_cons, List.mem_singleton, List.not_mem_nil, or_false]
    at he
  have k1 : ValidString (lit "type") = true := by decide
  have k2 : ValidString (lit "audience") = true := by decide
  have k3 : ValidString (lit "subject_token_type") = true := by decide
  have k4 : ValidString (lit "token_url") = true := by decide
  have k5 : ValidString (lit "service_account_impersonation_url") = true := by decide
  have k6 : ValidString (lit "credential_source") = true := by decide
  have k7 : ValidString (lit "file") = true := by decide
  have v1 : ValidString (lit "external_account") = true := by decide
  have v3 : ValidString (lit "urn:ietf:params:oauth:token-type:id_token") = true := by decide
  have v4 : ValidString (lit "https://sts.googleapis.com/v1/token") = true := by decide
  have a1 : ValidString (lit "//iam.googleapis.com/projects/") = true := by decide
  have a2 : ValidString (lit "/locations/global/workloadIdentityPools/") = true := by decide
  have a3 : ValidString (lit "/providers/") = true := by decide
  have i1 : ValidString
      (lit "https://iamcredentials.googleapis.com/v1/projects/-/serviceAccounts/") = true := by
    decide
  have i2 : ValidString (lit ":generateAccessToken") = true := by decide
  rcases he with rfl | rfl | rfl | rfl | rfl | rfl
  · exact ⟨k1, v1⟩
  · exact ⟨k2, ValidString_append _ _ (ValidString_append _ _ (ValidString_append _ _
      (ValidString_append _ _ (ValidString_append _ _ a1 hP) a2) hL) a3) hR⟩
  · exact ⟨k3, v3⟩
  · exact ⟨k4, v4⟩
  · exact ⟨k5, ValidString_append _ _ (ValidString_append _ _ i1 hE) i2⟩
  · refine ⟨k6, ?_⟩
    intro x hx
    simp only [List.mem_singleton] at hx
    subst hx
    exact ⟨k7, hT⟩

/-- C10, amended: when the project, pool, provider, service-account email and the
effective workspace are well-formed UTF-8 (whatever quotes, backslashes, control
characters or HTML characters they contain), decoding the JSON text that a successful
`WriteCredentialsToFile` wrote to the credentials file yields an object whose `audience`,
`token_url`, `subject_token_type`, `service_account_impersonation_url` and
`credential_source.file` are exactly the strings put into the document. -/
theorem credentials_json_round_trip (w w1 : World) (idToken P L R E credsPath : GoString)
    (hW : ValidString (homeDirOf w) = true) (hP : ValidString P = true)
    (hL : ValidString L = true) (hR : ValidString R = true) (hE : ValidString E = true)
    (h : WriteCredentialsToFile w idToken P L R E = (.ok credsPath, w1)) :
    decodedField w1 credsPath (lit "audience")
      = some (.str (lit "//iam.googleapis.com/projects/" ++ P
          ++ lit "/locations/global/workloadIdentityPools/" ++ L ++ lit "/providers/" ++ R))
    ∧ decodedField w1 credsPath (lit "token_url")
      = some (.str (lit "https://sts.googleapis.com/v1/token"))
    ∧ decodedField w1 credsPath (lit "subject_token_type")
      = some (.str (lit "urn:ietf:params:oauth:token-type:id_token"))
    ∧ decodedField w1 credsPath (lit "service_account_impersonation_url")
      = some (.str (lit "https://iamcredentials.googleapis.com/v1/projects/-/serviceAccounts/"
          ++ E ++ lit ":generateAccessToken"))
    ∧ decodedField w1 credsPath (lit "credential_source")
      = some (.strMap [(lit "file", homeDirOf w ++ lit "/tmp/id_token")]) := by
  obtain ⟨-, -, hf, -, -, -⟩ := WriteCredentialsToFile_ok w w1 idToken P L R E credsPath h
  have hT : ValidString (homeDirOf w ++ lit "/tmp" ++ lit "/id_token") = true :=
    ValidString_append _ _ (ValidString_append _ _ hW (by decide)) (by decide)
  have hdec := Unmarshal_MarshalIndent _
    (credentialsData_valid (homeDirOf w ++ lit "/tmp" ++ lit "/id_token") P L R E hT hP hL hR hE)
  rw [sortEntries_credentialsData] at hdec
  have hfile : (w1.files credsPath).bind Unmarshal
      = Unmarshal (MarshalIndent (credentialsData (homeDirOf w ++ lit "/tmp" ++ lit "/id_token")
          P L R E)).1 := by
    rw [hf]
    simp only [if_true, Option.some_bind]
  simp only [decodedField, hfile, hdec, Option.some_bind, List.map_cons, List.map_nil,
    Value.sorted]
  have hid : homeDirOf w ++ lit "/tmp" ++ lit "/id_token" = homeDirOf w ++ lit "/tmp/id_token" := by
    rw [List.append_assoc, lit_tmp_id_token]
  rw [hid]
  refine ⟨?_, ?_, ?_, ?_, ?_⟩ <;> rfl

theorem credentials_json_round_trip_witness :
    ValidString (homeDirOf sampleWorld) = true ∧ ValidString (lit "12<3") = true
    ∧ ValidString (lit "po\"ol") = true ∧ ValidString (lit "pr\\ov\n") = true
    ∧ ValidString (lit "é@b&c") = true
    ∧ decodedField
        (WriteCredentialsToFile sampleWorld (lit "tok") (lit "12<3") (lit "po\"ol")
          (lit "pr\\ov\n") (lit "é@b&c")).2
        (lit "/ws/.config/gcloud/application_default_credentials.json") (lit "audience")
      = some (.str (lit "//iam.googleapis.com/projects/" ++ lit "12<3"
          ++ lit "/locations/global/workloadIdentityPools/" ++ lit "po\"ol" ++ lit "/providers/"
          ++ lit "pr\\ov\n")) :=
  ⟨by decide, by decide, by decide, by decide, by decide,
    (credentials_json_round_trip sampleWorld _ (lit "tok") (lit "12<3") (lit "po\"ol")
      (lit "pr\\ov\n") (lit "é@b&c")
      (lit "/ws/.config/gcloud/application_default_credentials.json")
      (by decide) (by decide) (by decide) (by decide) (by decide) (by rfl)).1⟩

/-- C10, as stated, fails: with the project `\xff` (a byte that is no well-formed UTF-8)
`WriteCredentialsToFile` succeeds, and the `audience` decoded from the file it wrote has
U+FFFD (bytes EF BF BD) where the project was, so it is not the string put into the
document. -/
theorem ill_formed_project_is_not_recovered :
    (WriteCredentialsToFile sampleWorld (lit "tok") [0xFF] (lit "pool") (lit "prov")
        (lit "sa@x.iam")).1
      = .ok (lit "/ws/.config/gcloud/application_default_credentials.json")
    ∧ decodedField
        (WriteCredentialsToFile sampleWorld (lit "tok") [0xFF] (lit "pool") (lit "prov")
          (lit "sa@x.iam")).2
        (lit "/ws/.config/gcloud/application_default_credentials.json") (lit "audience")
      = some (.str (lit "//iam.googleapis.com/projects/" ++ [0xEF, 0xBF, 0xBD]
          ++ lit "/locations/global/workloadIdentityPools/" ++ lit "pool" ++ lit "/providers/"
          ++ lit "prov"))
    ∧ decodedField
        (WriteCredentialsToFile sampleWorld (lit "tok") [0xFF] (lit "pool") (lit "prov")
          (lit "sa@x.iam")).2
        (lit "/ws/.config/gcloud/application_default_credentials.json") (lit "audience")
      ≠ some (.str (lit "//iam.googleapis.com/projects/" ++ [0xFF]
          ++ lit "/locations/global/workloadIdentityPools/" ++ lit "pool" ++ lit "/providers/"
          ++ lit "prov")) :=
  ⟨by rfl, by decide, by decide⟩

theorem coerceAux_nil (n : Nat) : coerceAux n [] = [] := by
  cases n <;> rfl

/-- Coercion leaves a well-formed string as it is. -/
theorem coerceAux_of_valid (n : Nat) :
    ∀ (s : GoString), validStringAux n s = true → coerceAux n s = s := by
  induction n with
  | zero =>
    intro s hv
    cases s with
    | nil => rfl
    | cons b t => simp [validStringAux] at hv
  | succ n ih =>
    intro s hv
    cases s with
    | nil => rfl
    | cons b t =>
      simp only [validStringAux] at hv
      split_ifs at hv with hbad
      simp only [coerceAux, hbad, if_false]
      rw [ih _ hv, List.take_append_drop]

theorem coerceUTF8_of_valid (s : GoString) (hv : ValidString s = true) : coerceUTF8 s = s :=
  coerceAux_of_valid s.length s hv

/-- One step of the decoder reads the escape of U+FFFD. -/
theorem unquoteAux_replacement (fuel : Nat) (x acc : GoString) :
    unquoteAux (fuel + 1) (lit "\\ufffd" ++ x) acc
      = unquoteAux fuel x (acc ++ [0xEF, 0xBF, 0xBD]) := by
  have hl : lit "\\ufffd" = [0x5C, 0x75, 0x66, 0x66, 0x66, 0x64] := by decide
  rw [hl]
  have hg : getu4 (0x66 :: 0x66 :: 0x66 :: 0x64 :: x) = some 0xFFFD := by
    simp [getu4, show hexVal 0x66 = some 15 from by decide,
      show hexVal 0x64 = some 13 from by decide]
  have he : encodeRune 0xFFFD = [0xEF, 0xBF, 0xBD] := by decide
  simp [unquoteAux, hg, he]

/-- Decoding the inside of a string literal gives the string coerced to
well-formed UTF-8, for every string. -/
theorem unquoteAux_appendStringAux_coerce (n : Nat) :
    ∀ (src : GoString), src.length ≤ n →
      ∀ (fuel : Nat) (rest acc : GoString), (appendStringAux n src).length < fuel →
        unquoteAux fuel (appendStringAux n src ++ 0x22 :: rest) acc
          = some (acc ++ coerceAux n src, rest) := by
  induction n with
  | zero =>
    intro src hl fuel rest acc hf
    cases src with
    | nil =>
      obtain ⟨f, rfl⟩ : ∃ f, fuel = f + 1 := ⟨fuel - 1, by omega⟩
      simp [appendStringAux, unquoteAux, coerceAux]
    | cons b t => simp at hl
  | succ n ih =>
    intro src hl fuel rest acc hf
    cases src with
    | nil =>
      obtain ⟨f, rfl⟩ : ∃ f, fuel = f + 1 := ⟨fuel - 1, by omega⟩
      simp [appendStringAux, unquoteAux, coerceAux]
    | cons b t =>
      obtain ⟨f, rfl⟩ : ∃ f, fuel = f + 1 := ⟨fuel - 1, by omega⟩
      have hlt : t.length ≤ n := by simpa using hl
      by_cases hb : b < 0x80
      · have hd : decodeRune (b :: t) = (b, 1) := by simp [decodeRune, hb]
        have hnb : ¬(b = RuneError ∧ True) := by
          simp only [RuneError]; omega
        have hco : coerceAux (n + 1) (b :: t) = b :: coerceAux n t := by
          simp only [coerceAux, hd, hnb, if_false, List.take_succ_cons, List.take_zero,
            List.drop_succ_cons, List.drop_zero, List.singleton_append]
        by_cases hs : htmlSafeSet b = true
        · have henc : appendStringAux (n + 1) (b :: t) = b :: appendStringAux n t := by
            simp [appendStringAux, hb, hs]
          rw [henc] at hf ⊢
          rw [List.cons_append, unquoteAux_safe b hs,
            ih t hlt f rest (acc ++ [b]) (by simp at hf; omega), hco]
          simp
        · have hs' : htmlSafeSet b = false := by simpa using hs
          have henc : appendStringAux (n + 1) (b :: t) = escapeByte b ++ appendStringAux n t := by
            simp [appendStringAux, hb, hs']
          rw [henc] at hf ⊢
          rw [List.append_assoc, unquoteAux_escapeByte b hb hs']
          have hlen := escapeByte_length_pos b
          rw [ih t hlt f rest (acc ++ [b]) (by rw [List.length_append] at hf; omega), hco]
          simp
      · by_cases hbad : (decodeRune (b :: t)).1 = RuneError ∧ (decodeRune (b :: t)).2 = 1
        · have henc : appendStringAux (n + 1) (b :: t)
              = lit "\\ufffd" ++ appendStringAux n t := by
            simp only [appendStringAux, hb, hbad, and_self, if_false, if_true]
          have hco : coerceAux (n + 1) (b :: t) = [0xEF, 0xBF, 0xBD] ++ coerceAux n t := by
            simp only [coerceAux, hbad, and_self, if_true]
          rw [henc] at hf ⊢
          have hl6 : (lit "\\ufffd").length = 6 := by decide
          rw [List.append_assoc, unquoteAux_replacement,
            ih t hlt f rest _ (by rw [List.length_append, hl6] at hf; omega), hco,
            List.append_assoc]
        · obtain ⟨hle, he, -⟩ := decodeRune_wellFormed b t hbad
          have hpos := decodeRune_size_pos b t
          have hdl : ((b :: t).drop (decodeRune (b :: t)).2).length ≤ n := by
            rw [List.length_drop]
            simp only [List.length_cons] at hl ⊢
            omega
          have hco : coerceAux (n + 1) (b :: t)
              = (b :: t).take (decodeRune (b :: t)).2
                ++ coerceAux n ((b :: t).drop (decodeRune (b :: t)).2) := by
            simp only [coerceAux, hbad, if_false]
          by_cases h28 : (decodeRune (b :: t)).1 = 0x2028 ∨ (decodeRune (b :: t)).1 = 0x2029
          · have henc : appendStringAux (n + 1) (b :: t)
                = lit "\\u202" ++ [hex ((decodeRune (b :: t)).1 % 16)]
                  ++ appendStringAux n ((b :: t).drop (decodeRune (b :: t)).2) := by
              simp only [appendStringAux, hb, hbad, h28, if_false, if_true]
            rw [henc] at hf ⊢
            rw [List.append_assoc, unquoteAux_lineSeparator _ h28,
              ih _ hdl f rest _ (by simp at hf; omega), he, hco, List.append_assoc]
          · have henc : appendStringAux (n + 1) (b :: t)
                = (b :: t).take (decodeRune (b :: t)).2
                  ++ appendStringAux n ((b :: t).drop (decodeRune (b :: t)).2) := by
              simp only [appendStringAux, hb, hbad, h28, if_false]
            rw [henc] at hf ⊢
            rw [List.append_assoc, unquoteAux_multibyte b t hb hbad]
            have hlen : ((b :: t).take (decodeRune (b :: t)).2).length
                = (decodeRune (b :: t)).2 := by
              rw [List.length_take]; omega
            rw [ih _ hdl f rest _ (by rw [List.length_append, hlen] at hf; omega), hco,
              List.append_assoc]

/-- Decoding a string literal written by `appendString` gives the string
coerced to well-formed UTF-8. -/
theorem decodeString_appendString_coerce (src rest : GoString) :
    decodeString (appendString src ++ rest) = some (coerceUTF8 src, rest) := by
  rw [appendString_eq]
  simp only [decodeString, List.cons_append, if_true, List.append_assoc, List.singleton_append]
  have := unquoteAux_appendStringAux_coerce src.length src (Nat.le_refl _)
    (appendStringAux src.length src ++ 0x22 :: rest).length rest [] (by simp)
  simpa [coerceUTF8] using this

/-- Decoding the text of a value gives the value with its strings coerced to
well-formed UTF-8, when its keys are well-formed. -/
theorem decodeValue_marshalValue_coerce (d : Nat) (v : Value) (hv : v.keysValid)
    (rest : GoString) :
    decodeValue (marshalValue d v ++ rest) = some (v.decoded, rest) := by
  cases v with
  | str s =>
    have h := decodeString_appendString_coerce s rest
    simp only [marshalValue, Value.decoded]
    rw [appendString_eq] at h ⊢
    simp only [List.cons_append] at h ⊢
    simp only [decodeValue, if_true, h, Option.map_some']
  | strMap m =>
    have hq : ¬isSpace 0x22 := by unfold isSpace; omega
    have h := decodeObject_marshalObject d appendString decodeString coerceUTF8 (sortEntries m)
      (fun e he => hv e ((mem_sortEntries e m).1 he))
      (fun e _ r => decodeString_appendString_coerce e.2 r)
      (fun e _ => ⟨0x22, _, appendString_eq e.2, hq⟩) rest
    simp only [marshalValue, Value.decoded]
    obtain ⟨y, hy⟩ := marshalObject_start d appendString (sortEntries m)
    rw [hy, List.cons_append] at h ⊢
    have h7 : ¬ (0x7B : Nat) = 0x22 := by omega
    simp only [decodeValue, h7, if_false, if_true, h, Option.map_some']

/-- Decoding the text written by `MarshalIndent` gives the document in the
order of its keys, with its strings coerced to well-formed UTF-8, when its keys
are well-formed. -/
theorem Unmarshal_MarshalIndent_coerce (doc : Document)
    (hkeys : ∀ e ∈ doc, ValidString e.1 = true ∧ e.2.keysValid) :
    Unmarshal (MarshalIndent doc).1
      = some ((sortEntries doc).map (fun e => (e.1, e.2.decoded))) := by
  have h := decodeObject_marshalObject 0 (marshalValue 1) decodeValue Value.decoded
    (sortEntries doc)
    (fun e he => (hkeys e ((mem_sortEntries e doc).1 he)).1)
    (fun e he r =>
      decodeValue_marshalValue_coerce 1 e.2 (hkeys e ((mem_sortEntries e doc).1 he)).2 r)
    (fun e _ => marshalValue_start 1 e.2) []
  rw [List.append_nil] at h
  obtain ⟨y, hy⟩ := marshalObject_start 0 (marshalValue 1) (sortEntries doc)
  have hb : ¬isSpace 0x7B := by unfold isSpace; omega
  simp only [Unmarshal, MarshalIndent]
  rw [hy] at h ⊢
  rw [skipSpace_cons_of_not_space _ _ hb, h]
  simp [skipSpace]

/-- The keys of the credentials document are well-formed UTF-8, whatever its
inputs. -/
theorem credentialsData_keysValid (idTokenPath P L R E : GoString) :
    ∀ e ∈ credentialsData idTokenPath P L R E, ValidString e.1 = true ∧ e.2.keysValid := by
  intro e he
  simp only [credentialsData, List.mem_cons, List.mem_singleton, List.not_mem_nil, or_false]
    at he
  have k1 : ValidString (lit "type") = true := by decide
  have k2 : ValidString (lit "audience") = true := by decide
  have k3 : ValidString (lit "subject_token_type") = true := by decide
  have k4 : ValidString (lit "token_url") = true := by decide
  have k5 : ValidString (lit "service_account_impersonation_url") = true := by decide
  have k6 : ValidString (lit "credential_source") = true := by decide
  have k7 : ValidString (lit "file") = true := by decide
  rcases he with rfl | rfl | rfl | rfl | rfl | rfl
  · exact ⟨k1, trivial⟩
  · exact ⟨k2, trivial⟩
  · exact ⟨k3, trivial⟩
  · exact ⟨k4, trivial⟩
  · exact ⟨k5, trivial⟩
  · refine ⟨k6, ?_⟩
    intro x hx
    simp only [List.mem_singleton] at hx
    subst hx
    exact k7

/-- The document decoded from the text of the credentials file, for every
input. -/
theorem Unmarshal_credentialsData (idTokenPath P L R E : GoString) :
    Unmarshal (MarshalIndent (credentialsData idTokenPath P L R E)).1 =
      some
        [ (lit "audience", .str (coerceUTF8 (lit "//iam.googleapis.com/projects/" ++ P
            ++ lit "/locations/global/workloadIdentityPools/" ++ L ++ lit "/providers/" ++ R))),
          (lit "credential_source", .strMap [(lit "file", coerceUTF8 idTokenPath)]),
          (lit "service_account_impersonation_url",
            .str (coerceUTF8
              (lit "https://iamcredentials.googleapis.com/v1/projects/-/serviceAccounts/"
                ++ E ++ lit ":generateAccessToken"))),
          (lit "subject_token_type", .str (lit "urn:ietf:params:oauth:token-type:id_token")),
          (lit "token_url", .str (lit "https://sts.googleapis.com/v1/token")),
          (lit "type", .str (lit "external_account")) ] := by
  rw [Unmarshal_MarshalIndent_coerce _ (credentialsData_keysValid idTokenPath P L R E),
    sortEntries_credentialsData]
  have c1 : coerceUTF8 (lit "urn:ietf:params:oauth:token-type:id_token")
      = lit "urn:ietf:params:oauth:token-type:id_token" := by decide
  have c2 : coerceUTF8 (lit "https://sts.googleapis.com/v1/token")
      = lit "https://sts.googleapis.com/v1/token" := by decide
  have c3 : coerceUTF8 (lit "external_account") = lit "external_account" := by decide
  have es : sortEntries [(lit "file", idTokenPath)] = [(lit "file", idTokenPath)] := rfl
  simp only [List.map_cons, List.map_nil, Value.decoded, c1, c2, c3, es]

/-- C7, amended: after a successful `WriteCredentialsToFile` with effective workspace
`W`, whatever the inputs, the file `W/tmp/id_token` holds exactly the token, and the
text in `W/.config/gcloud/application_default_credentials.json` decodes to a JSON object
with exactly six members and no `scope` member: `type`, `subject_token_type` and
`token_url` with their fixed values, and `audience`,
`service_account_impersonation_url` and `credential_source.file` holding the strings
built from project, pool and provider, from the service-account email and from `W` (the
path the token was written to), coerced to well-formed UTF-8.  Coercion changes nothing
when the inputs are well-formed UTF-8, so the three members then hold exactly the
strings of the claim. -/
theorem WriteCredentialsToFile_writes_token_and_document (w w1 : World)
    (idToken P L R E W credsPath : GoString) (hW : homeDirOf w = W)
    (h : WriteCredentialsToFile w idToken P L R E = (.ok credsPath, w1)) :
    w1.files (W ++ lit "/tmp/id_token") = some idToken
    ∧ (w1.files (W ++ lit "/.config/gcloud/application_default_credentials.json")).bind
        Unmarshal =
      some
        [ (lit "audience", .str (coerceUTF8 (lit "//iam.googleapis.com/projects/" ++ P
            ++ lit "/locations/global/workloadIdentityPools/" ++ L ++ lit "/providers/" ++ R))),
          (lit "credential_source",
            .strMap [(lit "file", coerceUTF8 (W ++ lit "/tmp/id_token"))]),
          (lit "service_account_impersonation_url",
            .str (coerceUTF8
              (lit "https://iamcredentials.googleapis.com/v1/projects/-/serviceAccounts/"
                ++ E ++ lit ":generateAccessToken"))),
          (lit "subject_token_type", .str (lit "urn:ietf:params:oauth:token-type:id_token")),
          (lit "token_url", .str (lit "https://sts.googleapis.com/v1/token")),
          (lit "type", .str (lit "external_account")) ]
    ∧ ((w1.files (W ++ lit "/.config/gcloud/application_default_credentials.json")).bind
        Unmarshal).map (fun doc => doc.map Prod.fst) =
      some [lit "audience", lit "credential_source", lit "service_account_impersonation_url",
        lit "subject_token_type", lit "token_url", lit "type"]
    ∧ decodedField w1 (W ++ lit "/.config/gcloud/application_default_credentials.json")
        (lit "scope") = none
    ∧ (ValidString P = true → ValidString L = true → ValidString R = true →
        coerceUTF8 (lit "//iam.googleapis.com/projects/" ++ P
            ++ lit "/locations/global/workloadIdentityPools/" ++ L ++ lit "/providers/" ++ R)
          = lit "//iam.googleapis.com/projects/" ++ P
            ++ lit "/locations/global/workloadIdentityPools/" ++ L ++ lit "/providers/" ++ R)
    ∧ (ValidString E = true →
        coerceUTF8 (lit "https://iamcredentials.googleapis.com/v1/projects/-/serviceAccounts/"
            ++ E ++ lit ":generateAccessToken")
          = lit "https://iamcredentials.googleapis.com/v1/projects/-/serviceAccounts/"
            ++ E ++ lit ":generateAccessToken")
    ∧ (ValidString W = true →
        coerceUTF8 (W ++ lit "/tmp/id_token") = W ++ lit "/tmp/id_token") := by
  obtain ⟨hp, -, hf, -, -, -⟩ := WriteCredentialsToFile_ok w w1 idToken P L R E credsPath h
  subst hW
  rw [List.append_assoc, lit_creds_path] at hp
  rw [List.append_assoc, lit_tmp_id_token] at hf
  subst hp
  have hfile : (w1.files (homeDirOf w
      ++ lit "/.config/gcloud/application_default_credentials.json")).bind Unmarshal
      = Unmarshal (MarshalIndent (credentialsData (homeDirOf w ++ lit "/tmp/id_token")
          P L R E)).1 := by
    rw [hf]
    simp only [if_true, Option.some_bind]
  have a1 : ValidString (lit "//iam.googleapis.com/projects/") = true := by decide
  have a2 : ValidString (lit "/locations/global/workloadIdentityPools/") = true := by decide
  have a3 : ValidString (lit "/providers/") = true := by decide
  have i1 : ValidString
      (lit "https://iamcredentials.googleapis.com/v1/projects/-/serviceAccounts/") = true := by
    decide
  have i2 : ValidString (lit ":generateAccessToken") = true := by decide
  have t1 : ValidString (lit "/tmp/id_token") = true := by decide
  refine ⟨?_, ?_, ?_, ?_, ?_, ?_, ?_⟩
  · rw [hf]
    simp only [id_token_ne_creds, if_false, if_true]
  · rw [hfile, Unmarshal_credentialsData]
  · rw [hfile, Unmarshal_credentialsData]
    rfl
  · simp only [decodedField, hfile, Unmarshal_credentialsData, Option.some_bind]
    rfl
  · intro hP hL hR
    exact coerceUTF8_of_valid _ (ValidString_append _ _ (ValidString_append _ _
      (ValidString_append _ _ (ValidString_append _ _ (ValidString_append _ _ a1 hP) a2) hL)
      a3) hR)
  · intro hE
    exact coerceUTF8_of_valid _ (ValidString_append _ _ (ValidString_append _ _ i1 hE) i2)
  · intro hV
    exact coerceUTF8_of_valid _ (ValidString_append _ _ hV t1)

theorem WriteCredentialsToFile_writes_token_and_document_witness :
    homeDirOf sampleWorld = lit "/ws"
    ∧ WriteCredentialsToFile sampleWorld (lit "tok") (lit "1\",\"scope\":\"evil") (lit "pool")
        (lit "prov") (lit "sa@x.iam")
      = (.ok (lit "/ws/.config/gcloud/application_default_credentials.json"),
        (WriteCredentialsToFile sampleWorld (lit "tok") (lit "1\",\"scope\":\"evil")
          (lit "pool") (lit "prov") (lit "sa@x.iam")).2)
    ∧ ValidString (lit "1\",\"scope\":\"evil") = true ∧ ValidString (lit "pool") = true
    ∧ ValidString (lit "prov") = true
    ∧ (WriteCredentialsToFile sampleWorld (lit "tok") (lit "1\",\"scope\":\"evil") (lit "pool")
        (lit "prov") (lit "sa@x.iam")).2.files (lit "/ws" ++ lit "/tmp/id_token")
      = some (lit "tok")
    ∧ (((WriteCredentialsToFile sampleWorld (lit "tok") (lit "1\",\"scope\":\"evil")
        (lit "pool") (lit "prov") (lit "sa@x.iam")).2.files
          (lit "/ws" ++ lit "/.config/gcloud/application_default_credentials.json")).bind
        Unmarshal).map (fun doc => doc.map Prod.fst) =
      some [lit "audience", lit "credential_source", lit "service_account_impersonation_url",
        lit "subject_token_type", lit "token_url", lit "type"]
    ∧ decodedField
        (WriteCredentialsToFile sampleWorld (lit "tok") (lit "1\",\"scope\":\"evil") (lit "pool")
          (lit "prov") (lit "sa@x.iam")).2
        (lit "/ws" ++ lit "/.config/gcloud/application_default_credentials.json") (lit "scope")
      = none
    ∧ coerceUTF8 (lit "//iam.googleapis.com/projects/" ++ lit "1\",\"scope\":\"evil"
          ++ lit "/locations/global/workloadIdentityPools/" ++ lit "pool" ++ lit "/providers/"
          ++ lit "prov")
      = lit "//iam.googleapis.com/projects/" ++ lit "1\",\"scope\":\"evil"
          ++ lit "/locations/global/workloadIdentityPools/" ++ lit "pool" ++ lit "/providers/"
          ++ lit "prov" :=
  have t := WriteCredentialsToFile_writes_token_and_document sampleWorld _ (lit "tok")
    (lit "1\",\"scope\":\"evil") (lit "pool") (lit "prov") (lit "sa@x.iam") (lit "/ws")
    (lit "/ws/.config/gcloud/application_default_credentials.json") (by decide) (by rfl)
  ⟨by decide, by rfl, by decide, by decide, by decide, t.1, t.2.2.1, t.2.2.2.1,
    t.2.2.2.2.1 (by decide) (by decide) (by decide)⟩

/-- C7, as stated, fails: with the service-account email `\xff` (a byte that is no
well-formed UTF-8) `WriteCredentialsToFile` succeeds, and the
`service_account_impersonation_url` of the JSON object in the file it wrote has U+FFFD
(bytes EF BF BD) where the email was, so it is not the string the claim gives. -/
theorem ill_formed_email_is_not_written_as_given :
    (WriteCredentialsToFile sampleWorld (lit "tok") (lit "123") (lit "pool") (lit "prov")
        [0xFF]).1
      = .ok (lit "/ws/.config/gcloud/application_default_credentials.json")
    ∧ decodedField
        (WriteCredentialsToFile sampleWorld (lit "tok") (lit "123") (lit "pool") (lit "prov")
          [0xFF]).2
        (lit "/ws/.config/gcloud/application_default_credentials.json")
        (lit "service_account_impersonation_url")
      = some (.str (lit "https://iamcredentials.googleapis.com/v1/projects/-/serviceAccounts/"
          ++ [0xEF, 0xBF, 0xBD] ++ lit ":generateAccessToken"))
    ∧ decodedField
        (WriteCredentialsToFile sampleWorld (lit "tok") (lit "123") (lit "pool") (lit "prov")
          [0xFF]).2
        (lit "/ws/.config/gcloud/application_default_credentials.json")
        (lit "service_account_impersonation_url")
      ≠ some (.str (lit "https://iamcredentials.googleapis.com/v1/projects/-/serviceAccounts/"
          ++ [0xFF] ++ lit ":generateAccessToken")) :=
  ⟨by rfl, by decide, by decide⟩

end GcpOidc
